import Mathlib

/-!
Verification of the CSV conversion pipeline in `convert_appointment.py`
(`convert_content` and its helper functions `normalize_phone`, `split_name`,
`parse_vehicle`, `parse_datetime`).  Strings are modelled as `List Char`;
Python's `str` operations (`strip`, `split`, `capitalize`, `splitlines`),
its `re` patterns as used by the code, `datetime.strptime` for the one fixed
format, and the `csv` module's reader/writer dialect are embedded directly.
-/

set_option maxRecDepth 100000
set_option maxHeartbeats 2000000

namespace CsvConv

/-- Python strings, modelled as lists of characters. -/
abbrev Str := List Char

/-- Literal helper: convert a Lean string literal to the model type. -/
def str (s : String) : Str := s.data

/-- The character set of Python's `str.isspace` / regex `\s` (Unicode
whitespace, including the exotic line-break characters). -/
def pyIsSpace (c : Char) : Bool :=
  c = ' ' || c = '\t' || c = '\n' || c = '\x0b' || c = '\x0c' || c = '\r' ||
  c = '\x1c' || c = '\x1d' || c = '\x1e' || c = '\x1f' || c = '\x85' ||
  c = '\xa0' || c = ' ' || (0x2000 ≤ c.toNat && c.toNat ≤ 0x200a) ||
  c = ' ' || c = ' ' || c = ' ' || c = ' ' || c = '　'

/-- Python `str.strip()`: remove leading and trailing whitespace. -/
def pyStrip (s : Str) : Str :=
  ((s.dropWhile pyIsSpace).reverse.dropWhile pyIsSpace).reverse

/-- Helper for `pySplit`: `acc` is the current token, reversed. -/
def pySplitAux (acc : Str) : Str → List Str
  | [] => if acc = [] then [] else [acc.reverse]
  | c :: r =>
    if pyIsSpace c then
      if acc = [] then pySplitAux [] r else acc.reverse :: pySplitAux [] r
    else pySplitAux (c :: acc) r

/-- Python `str.split()` with no argument: split on whitespace runs,
discarding empty tokens. -/
def pySplit (s : Str) : List Str := pySplitAux [] s

/-- Python's `needle in hay` substring test. -/
def containsSub (needle : Str) : Str → Bool
  | [] => needle.isEmpty
  | c :: r => needle.isPrefixOf (c :: r) || containsSub needle r

/-- Python `" ".join(parts)`. -/
def joinSpace (parts : List Str) : Str := List.intercalate [' '] parts

/-- Python `str.capitalize()`: first character uppercased, the rest
lowercased. -/
def pyCapitalize (s : Str) : Str :=
  match s with
  | [] => []
  | c :: r => c.toUpper :: r.map Char.toLower

/-- The character class `[0-9\s\-\(\)]` of the phone regex. -/
def phoneClass (c : Char) : Bool :=
  c.isDigit || pyIsSpace c || c = '-' || c = '(' || c = ')'

/-- One of the phone labels `C|H|W|B`. -/
def isLabel (c : Char) : Bool := c = 'C' || c = 'H' || c = 'W' || c = 'B'

instance {ε α : Type} [DecidableEq ε] [DecidableEq α] : DecidableEq (Except ε α) :=
  fun a b =>
    match a, b with
    | .ok x, .ok y => decidable_of_iff (x = y) (by simp)
    | .error x, .error y => decidable_of_iff (x = y) (by simp)
    | .ok _, .error _ => isFalse fun h => Except.noConfusion h
    | .error _, .ok _ => isFalse fun h => Except.noConfusion h

/-- Scanner state for the phone regex: between matches, just after a label
character, or collecting the class-character run after `label:`. -/
inductive PhSt
  | idle : PhSt
  | seen : Char → PhSt
  | collect : Char → Str → PhSt
deriving DecidableEq

/-- Scanner transition when no match is in progress. -/
def phIdleStep (c : Char) : PhSt := if isLabel c then .seen c else .idle

/-- One character of the `re.findall` scan (the collected run is kept
reversed). -/
def phoneStep (s : PhSt × List (Char × Str)) (c : Char) : PhSt × List (Char × Str) :=
  match s.1 with
  | .idle => (phIdleStep c, s.2)
  | .seen l => if c = ':' then (.collect l [], s.2) else (phIdleStep c, s.2)
  | .collect l acc =>
    if phoneClass c then (.collect l (c :: acc), s.2)
    else if acc = [] then (phIdleStep c, s.2)
    else (phIdleStep c, s.2 ++ [(l, acc.reverse)])

/-- Matches emitted by the scan of `raw` starting in state `st`, with a
pending collected run flushed at end of input. -/
def phoneEmitted (st : PhSt) (raw : Str) : List (Char × Str) :=
  match raw.foldl phoneStep (st, []) with
  | (.collect l acc, ms) => if acc = [] then ms else ms ++ [(l, acc.reverse)]
  | (_, ms) => ms

/-- `re.findall(r"(C|H|W|B):\s*([0-9\s\-\(\)]+)", raw)`: left-to-right
non-overlapping matches; each match is reported as the label and the maximal
run of class characters after the colon (the `\s*`-vs-group split inside a
match does not affect which matches exist, the digits kept later, or the
scan resumption point). -/
def phoneMatches (raw : Str) : List (Char × Str) := phoneEmitted .idle raw

/-- One iteration of the `phones` dict loop: `re.sub(r"\D", "", number)`
and the `if digits:` guard. -/
def phoneDictEntry (m : Char × Str) : Option (Char × Str) :=
  if m.2.filter Char.isDigit = [] then none
  else some (m.1, m.2.filter Char.isDigit)

/-- The `phones` dict built in `normalize_phone`: keep each match whose
digit-strip is non-empty, as (label, digits). -/
def phoneDict (ms : List (Char × Str)) : List (Char × Str) :=
  ms.filterMap phoneDictEntry

/-- Dict lookup where later insertions of the same key overwrite earlier
ones: return the value of the last matching entry. -/
def dictGet (d : List (Char × Str)) (k : Char) : Option Str :=
  ((d.filter fun e => e.1 = k).getLast?).map (·.2)

/-- `PHONE_PRIORITY = ("C", "H", "W", "B")`. -/
def phonePriority : List Char := ['C', 'H', 'W', 'B']

/-- The priority loop at the end of `normalize_phone`. -/
def pickPhone (d : List (Char × Str)) : List Char → Str
  | [] => []
  | l :: ls =>
    match dictGet d l with
    | some v => v
    | none => pickPhone d ls

/-- `normalize_phone` from `convert_appointment.py`. -/
def normalize_phone (raw : Str) : Str :=
  if raw = [] then []
  else pickPhone (phoneDict (phoneMatches raw)) phonePriority

/-- `split_name` from `convert_appointment.py`.  Python raises `IndexError`
(`parts[-1]` on an empty list) when the input is non-empty but all
whitespace; that failure is modelled by `Except.error`. -/
def split_name (full : Str) : Except Unit (Str × Str) :=
  if full = [] then .ok ([], [])
  else
    match pySplit (pyStrip full) with
    | [] => .error ()
    | [p] => .ok (p, [])
    | ps => .ok (joinSpace ps.dropLast, ps.getLastD [])

/-- `parse_vehicle` from `convert_appointment.py`: `(year_2digit, make,
model)` or the empty triple. -/
def parse_vehicle (vehicle : Str) : Str × Str × Str :=
  if vehicle = [] ∨ vehicle.length < 5 then ([], [], [])
  else
    match pySplit vehicle with
    | [] => ([], [], [])
    | [_] => ([], [], [])
    | y :: mk :: rest =>
      if y.all Char.isDigit = false ∨ y.length ≠ 4 then ([], [], [])
      else (y.drop (y.length - 2), mk,
            if rest ≠ [] then joinSpace rest else [])

/-! ### `parse_datetime`: `datetime.strptime(s, "%m/%d/%Y %I:%M:%S %p")`
followed by `strftime` formatting.  CPython's `_strptime` compiles the
format to a regex in which `%m`, `%d`, `%I` match one or two digits (zero
padding optional), `%M`/`%S` match one or two digits, `%Y` matches exactly
four digits, literal whitespace matches any non-empty whitespace run, and
`AM`/`PM` match case-insensitively; the whole string must be consumed, and
the `datetime` constructor then validates the calendar date and the
seconds range. -/

/-- Gregorian leap year (as used by `datetime`). -/
def isLeap (y : Nat) : Bool := (y % 4 = 0 && y % 100 ≠ 0) || y % 400 = 0

/-- Days in a month of the proleptic Gregorian calendar. -/
def daysInMonth (y m : Nat) : Nat :=
  if m = 2 then (if isLeap y then 29 else 28)
  else if m = 4 || m = 6 || m = 9 || m = 11 then 30
  else 31

/-- Month offsets of Sakamoto's day-of-week algorithm. -/
def sakamotoT : List Nat := [0, 3, 2, 5, 0, 3, 5, 1, 4, 6, 2, 4]

/-- Day of week of a proleptic Gregorian date, `0 = Sunday` (Sakamoto). -/
def dayOfWeek (y m d : Nat) : Nat :=
  let y1 := if m < 3 then y - 1 else y
  (y1 + y1 / 4 + y1 / 400 + sakamotoT.getD (m - 1) 0 + d - y1 / 100) % 7

/-- `%A` names, indexed by `dayOfWeek`. -/
def weekdayNames : List Str :=
  [str "Sunday", str "Monday", str "Tuesday", str "Wednesday",
   str "Thursday", str "Friday", str "Saturday"]

/-- `%B` names, indexed by month (1-based). -/
def monthNames : List Str :=
  [str "January", str "February", str "March", str "April", str "May",
   str "June", str "July", str "August", str "September", str "October",
   str "November", str "December"]

/-- Decimal digits of a natural number. -/
def natStr (n : Nat) : Str := Nat.toDigits 10 n

/-- Two-digit zero-padded decimal (for `%H`/`%M`). -/
def pad2 (n : Nat) : Str := if n < 10 then '0' :: natStr n else natStr n

/-- Numeric value of a digit string. -/
def digitsVal (r : Str) : Nat := r.foldl (fun a c => a * 10 + (c.toNat - 48)) 0

/-- A 1-or-2-digit numeric field of the strptime regex: the maximal digit
run must have length 1 or 2 and value in `[lo, hi]`. -/
def parseNum2 (lo hi : Nat) (s : Str) : Option (Nat × Str) :=
  let r := s.takeWhile Char.isDigit
  if 1 ≤ r.length && r.length ≤ 2 && lo ≤ digitsVal r && digitsVal r ≤ hi then
    some (digitsVal r, s.dropWhile Char.isDigit)
  else none

/-- The `%Y` field: exactly four digits. -/
def parseYear4 (s : Str) : Option (Nat × Str) :=
  let r := s.takeWhile Char.isDigit
  if r.length = 4 then some (digitsVal r, s.dropWhile Char.isDigit) else none

/-- A literal character of the format. -/
def expectChar (c : Char) : Str → Option Str
  | [] => none
  | x :: r => if x = c then some r else none

/-- Literal whitespace in the format: matches `\s+`. -/
def ws1 (s : Str) : Option Str :=
  if s.takeWhile pyIsSpace = [] then none else some (s.dropWhile pyIsSpace)

/-- The `%p` field: `AM` or `PM`, case-insensitive; `true` means PM. -/
def parseAmPm : Str → Option (Bool × Str)
  | a :: b :: r =>
    if a.toLower = 'a' && b.toLower = 'm' then some (false, r)
    else if a.toLower = 'p' && b.toLower = 'm' then some (true, r)
    else none
  | _ => none

/-- A parsed-and-validated `datetime` (hour already converted to 24h). -/
structure DT where
  year : Nat
  month : Nat
  day : Nat
  hour : Nat
  minute : Nat
  second : Nat
deriving DecidableEq

/-- `datetime.strptime(s, "%m/%d/%Y %I:%M:%S %p")`, including the range
validation done by the `datetime` constructor; `none` models `ValueError`. -/
def strptimeAppt (s : Str) : Option DT :=
  match parseNum2 1 12 s with
  | none => none
  | some (m, s1) =>
  match expectChar '/' s1 with
  | none => none
  | some s2 =>
  match parseNum2 1 31 s2 with
  | none => none
  | some (d, s3) =>
  match expectChar '/' s3 with
  | none => none
  | some s4 =>
  match parseYear4 s4 with
  | none => none
  | some (y, s5) =>
  match ws1 s5 with
  | none => none
  | some s6 =>
  match parseNum2 1 12 s6 with
  | none => none
  | some (i, s7) =>
  match expectChar ':' s7 with
  | none => none
  | some s8 =>
  match parseNum2 0 59 s8 with
  | none => none
  | some (mi, s9) =>
  match expectChar ':' s9 with
  | none => none
  | some s10 =>
  match parseNum2 0 61 s10 with
  | none => none
  | some (se, s11) =>
  match ws1 s11 with
  | none => none
  | some s12 =>
  match parseAmPm s12 with
  | none => none
  | some (pm, s13) =>
  if s13 = [] && 1 ≤ y && d ≤ daysInMonth y m && se ≤ 59 then
    let h := if pm then (if i = 12 then 12 else i + 12)
             else (if i = 12 then 0 else i)
    some ⟨y, m, d, h, mi, se⟩
  else none

/-- `dt.strftime(f"%A, %B {day}")`. -/
def apptString (dt : DT) : Str :=
  weekdayNames.getD (dayOfWeek dt.year dt.month dt.day) [] ++ str ", " ++
  monthNames.getD (dt.month - 1) [] ++ [' '] ++ natStr dt.day

/-- `dt.strftime("%H:%M")`. -/
def timeString (dt : DT) : Str := pad2 dt.hour ++ [':'] ++ pad2 dt.minute

/-- `parse_datetime` from `convert_appointment.py`. -/
def parse_datetime (dt_str : Str) : Str × Str :=
  if dt_str = [] then ([], [])
  else
    match strptimeAppt (pyStrip dt_str) with
    | none => ([], [])
    | some dt => (apptString dt, timeString dt)

/-! ### The row-level pipeline of `convert_content` -/

/-- One output record (the dict appended to `output_rows`). -/
structure Rec where
  phone_number : Str
  customer : Str
  lastName : Str
  year : Str
  make : Str
  model : Str
  vin : Str
  miles : Str
  appointment : Str
  time : Str
  rate : Str
  purchaseDate : Str
  lender : Str
  payment : Str
deriving DecidableEq

/-- The pipeline's two `ValueError`s and the uncaught `IndexError` that row
extraction can raise. -/
inductive ConvErr
  | headerNotFound : ConvErr
  | missingHeaders : List Str → ConvErr
  | indexError : ConvErr
deriving DecidableEq

/-- `required_fields` (kept in the literal's order). -/
def requiredFields : List Str :=
  [str "Customer", str "Vehicle", str "VIN", str "Mileage",
   str "Appointment Date", str "Rate", str "Phone Numbers"]

/-- The header test: `len(row) > 0 and "Customer" in row[0]`. -/
def isHeaderRow (row : List Str) : Bool :=
  match row with
  | [] => false
  | c0 :: _ => containsSub (str "Customer") c0

/-- Index of the first header row, if any. -/
def findHeaderIdx (rows : List (List Str)) : Option Nat :=
  rows.findIdx? isHeaderRow

/-- `header_map = {h: i for i, h in enumerate(headers)}`: a duplicated name
maps to its last index. -/
def lastIdxOf (name : Str) (headers : List Str) : Option Nat :=
  ((headers.enum.filter fun e => e.2 = name).getLast?).map (·.1)

/-- `header_map.get(name, fb)`. -/
def hGet (headers : List Str) (name : Str) (fb : Nat) : Nat :=
  (lastIdxOf name headers).getD fb

/-- The `while len(row) < len(headers): row.append("")` padding: pad short
rows with empty cells, never truncate long ones. -/
def padTo (row : List Str) (n : Nat) : List Str :=
  row ++ List.replicate (n - row.length) ([] : Str)

/-- `(row[i] or "").strip()`; `Except.error` models the `IndexError` raised
when `i` is out of range. -/
def cellAt (row : List Str) (i : Nat) : Except Unit Str :=
  match row.get? i with
  | some c => .ok (pyStrip c)
  | none => .error ()

/-- The dedup key `(vin, appointment, time_24h)`. -/
abbrev DKey := Str × Str × Str

/-- Extraction of one named column from a data row: pad the row to the
header length, look the name up in the header map (with the source's fixed
fallback index), read and strip the cell; `IndexError` when the index is
out of range. -/
def extractField (headers row : List Str) (name : Str) (fb : Nat) :
    Except Unit Str :=
  cellAt (padTo row headers.length) (hGet headers name fb)

/-- The loop body of `convert_content` after field extraction: vehicle
validity check, normalizers, datetime validity check, lender resolution,
deduplication; returns the accepted record (if any) and the updated
seen-set. -/
def recordOf (seen : List DKey)
    (customer vehicle vin miles apptDate rate pl purchaseDate bankName
     payment phoneNumbers : Str) :
    Except Unit (Option Rec × List DKey) :=
  if vehicle = [] ∨ vehicle.length < 5 then .ok (none, seen)
  else
    let phone := normalize_phone phoneNumbers
    match split_name customer with
    | .error e => .error e
    | .ok (first0, last0) =>
      let first := if first0 ≠ [] then pyCapitalize first0 else []
      let last := if last0 ≠ [] then pyCapitalize last0 else []
      let pv := parse_vehicle vehicle
      let pdt := parse_datetime apptDate
      if pdt.1 = [] ∨ pdt.2 = [] then .ok (none, seen)
      else
        let lender := if bankName ≠ [] then bankName else pl
        let key : DKey := (vin, pdt.1, pdt.2)
        if vin ≠ [] ∧ key ∈ seen then .ok (none, seen)
        else .ok (some ⟨phone, first, last, pv.1, pv.2.1, pv.2.2, vin, miles,
                        pdt.1, pdt.2, rate, purchaseDate, lender,
                        payment⟩, key :: seen)

/-- The body of the `for row in data_rows` loop: extract the eleven
recognized columns, then run the filter/normalize/dedup logic. -/
def processRow (headers : List Str) (seen : List DKey) (row : List Str) :
    Except Unit (Option Rec × List DKey) := do
  let customer ← extractField headers row (str "Customer") 0
  let vehicle ← extractField headers row (str "Vehicle") 1
  let vin ← extractField headers row (str "VIN") 2
  let miles ← extractField headers row (str "Mileage") 3
  let apptDate ← extractField headers row (str "Appointment Date") 4
  let rate ← extractField headers row (str "Rate") 5
  let pl ← extractField headers row (str "P/L") 6
  let purchaseDate ← extractField headers row (str "Purchase Date") 7
  let bankName ← extractField headers row (str "Bank Name") 8
  let payment ← extractField headers row (str "Payment") 9
  let phoneNumbers ← extractField headers row (str "Phone Numbers") 11
  recordOf seen customer vehicle vin miles apptDate rate pl purchaseDate
    bankName payment phoneNumbers

/-- The loop over all data rows, accumulating accepted records in order. -/
def processRows (headers : List Str) (seen : List DKey) :
    List (List Str) → Except Unit (List Rec)
  | [] => .ok []
  | row :: rest =>
    match processRow headers seen row with
    | .error e => .error e
    | .ok (none, seen1) => processRows headers seen1 rest
    | .ok (some rec, seen1) =>
      match processRows headers seen1 rest with
      | .error e => .error e
      | .ok recs => .ok (rec :: recs)

/-- `convert_content` up to (but not including) serialization: locate the
header, check required columns, process data rows. -/
def convertRows (rows : List (List Str)) : Except ConvErr (List Rec) :=
  match findHeaderIdx rows with
  | none => .error .headerNotFound
  | some i =>
    let headers := rows.getD i []
    let dataRows := rows.drop (i + 1)
    let missing := requiredFields.filter fun f => ¬ headers.contains f
    if missing ≠ [] then .error (.missingHeaders missing)
    else
      match processRows headers [] dataRows with
      | .error _ => .error .indexError
      | .ok recs => .ok recs

/-- The eleven recognized column names with the fixed fallback indices the
code passes to `header_map.get`. -/
def recognizedFields : List (Str × Nat) :=
  [(str "Customer", 0), (str "Vehicle", 1), (str "VIN", 2),
   (str "Mileage", 3), (str "Appointment Date", 4), (str "Rate", 5),
   (str "Phone Numbers", 11), (str "P/L", 6), (str "Purchase Date", 7),
   (str "Bank Name", 8), (str "Payment", 9)]

/-- The header layout of the real export (used only in examples). -/
def fullHeader : List Str :=
  [str "Customer", str "Vehicle", str "VIN", str "Mileage",
   str "Appointment Date", str "Rate", str "P/L", str "Purchase Date",
   str "Bank Name", str "Payment", str "Sales Person", str "Phone Numbers",
   str "Service Advisor"]

/-! ### Text level: `str.splitlines`, the `csv` module dialect, and
`convert_content` on raw text -/

/-- The line-boundary characters of Python `str.splitlines` (with `\r\n`
treated as a single boundary by the splitter itself). -/
def isLineBreak (c : Char) : Bool :=
  c = '\n' || c = '\r' || c = '\x0b' || c = '\x0c' || c = '\x1c' ||
  c = '\x1d' || c = '\x1e' || c = '\x85' || c = ' ' || c = ' '

/-- Helper for `pySplitlines`; `acc` is the current line, reversed. -/
def splitlinesAux (acc : Str) : Str → List Str
  | [] => if acc = [] then [] else [acc.reverse]
  | '\r' :: '\n' :: r => acc.reverse :: splitlinesAux [] r
  | c :: r =>
    if isLineBreak c then acc.reverse :: splitlinesAux [] r
    else splitlinesAux (c :: acc) r

/-- Python `str.splitlines()`. -/
def pySplitlines (s : Str) : List Str := splitlinesAux [] s

/-- Parser modes of the `csv.reader` state machine (default dialect,
`doublequote=True`, non-strict): start of record, start of field, inside an
unquoted field, inside a quoted field, just after a quote inside a quoted
field. -/
inductive CMode
  | sr : CMode
  | sf : CMode
  | inf : CMode
  | inq : CMode
  | qq : CMode
deriving DecidableEq

/-- Reader state: mode, current field (reversed), current record's
completed fields (reversed). -/
abbrev CSt := CMode × Str × List Str

/-- One character of the `csv.reader` state machine. -/
def csvChar (st : CSt) (c : Char) : CSt :=
  match st with
  | (.sr, f, row) | (.sf, f, row) =>
    if c = '"' then (.inq, f, row)
    else if c = ',' then (.sf, [], f.reverse :: row)
    else (.inf, [c], row)
  | (.inf, f, row) =>
    if c = ',' then (.sf, [], f.reverse :: row) else (.inf, c :: f, row)
  | (.inq, f, row) =>
    if c = '"' then (.qq, f, row) else (.inq, c :: f, row)
  | (.qq, f, row) =>
    if c = '"' then (.inq, '"' :: f, row)
    else if c = ',' then (.sf, [], f.reverse :: row)
    else (.inf, c :: f, row)

/-- End of one input line: emit a record unless inside a quoted field (in
which case the field simply continues on the next line, with nothing
appended, as `csv.reader` does on newline-less line iterables). -/
def csvEol (st : CSt) : Option (List Str) × CSt :=
  match st with
  | (.sr, _, _) => (some [], (.sr, [], []))
  | (.inq, f, row) => (none, (.inq, f, row))
  | (_, f, row) => (some (f.reverse :: row).reverse, (.sr, [], []))

/-- Run the reader over one line. -/
def csvLine (st : CSt) (line : Str) : Option (List Str) × CSt :=
  csvEol (line.foldl csvChar st)

/-- Run the reader over the remaining lines; at end of input a pending
quoted field is flushed as a final record. -/
def csvLinesAux (st : CSt) : List Str → List (List Str)
  | [] =>
    match st with
    | (.inq, f, row) => [(f.reverse :: row).reverse]
    | _ => []
  | l :: ls =>
    match csvLine st l with
    | (some row, st1) => row :: csvLinesAux st1 ls
    | (none, st1) => csvLinesAux st1 ls

/-- `list(csv.reader(lines))`. -/
def csvReadLines (lines : List Str) : List (List Str) :=
  csvLinesAux (.sr, [], []) lines

/-- `csv.writer` `QUOTE_MINIMAL` test: quote iff the field contains the
delimiter, the quote character, or a line-terminator character. -/
def needsQuote (f : Str) : Bool :=
  f.any fun c => c = ',' || c = '"' || c = '\r' || c = '\n'

/-- Double every quote character (`doublequote=True`). -/
def escapeQuotes : Str → Str
  | [] => []
  | c :: r =>
    if c = '"' then '"' :: '"' :: escapeQuotes r else c :: escapeQuotes r

/-- Serialize one field. -/
def quoteField (f : Str) : Str :=
  if needsQuote f then '"' :: escapeQuotes f ++ ['"'] else f

/-- One CSV line (without the terminator). -/
def csvJoinRow (cells : List Str) : Str :=
  List.intercalate [','] (cells.map quoteField)

/-- One CSV line with the writer's `\r\n` terminator. -/
def csvWriteRow (cells : List Str) : Str := csvJoinRow cells ++ ['\r', '\n']

/-- `csv.writer` output for a list of rows. -/
def csvWrite (rows : List (List Str)) : Str := (rows.map csvWriteRow).flatten

/-- The fixed `fieldnames` list of the output `DictWriter`. -/
def outFieldnames : List Str :=
  [str "phone_number", str "Customer", str "Last Name", str "Year",
   str "Make", str "Model", str "Vin", str "Miles", str "Appointment",
   str "Time", str "Rate", str "Purchase Date", str "Lender", str "Payment"]

/-- The cells written for one record, in `fieldnames` order. -/
def recToRow (r : Rec) : List Str :=
  [r.phone_number, r.customer, r.lastName, r.year, r.make, r.model, r.vin,
   r.miles, r.appointment, r.time, r.rate, r.purchaseDate, r.lender,
   r.payment]

/-- `convert_content` from `convert_appointment.py`, end to end on raw
text: parse with `csv.reader(file_content.splitlines())`, run the row
pipeline, serialize with the fixed header, return the text and row count. -/
def convert_content (text : Str) : Except ConvErr (Str × Nat) :=
  match convertRows (csvReadLines (pySplitlines text)) with
  | .error e => .error e
  | .ok recs =>
    .ok (csvWrite (outFieldnames :: recs.map recToRow), recs.length)

/-- The record a terminator (or end of text mid-record) emits from a
state: a blank position yields the empty record, otherwise the pending
field is closed and the record's fields are returned in order. -/
def emitRec (st : CSt) : List Str :=
  match st with
  | (.sr, _, _) => []
  | (_, f, row) => (f.reverse :: row).reverse

/-- Standard CSV record splitting of a text: quote-aware, with `\r\n`,
`\r`, or `\n` outside quotes ending a record (the record structure produced
by `csv.writer`'s own dialect); used to state what the serialized output's
records are. -/
def csvTextAux (st : CSt) : Str → List (List Str)
  | [] =>
    match st with
    | (.sr, _, _) => []
    | (_, f, row) => [(f.reverse :: row).reverse]
  | c :: r =>
    if st.1 = CMode.inq then csvTextAux (csvChar st c) r
    else if c = '\r' then
      emitRec st ::
        (match r with
         | '\n' :: r2 => csvTextAux (.sr, [], []) r2
         | r => csvTextAux (.sr, [], []) r)
    else if c = '\n' then emitRec st :: csvTextAux (.sr, [], []) r
    else csvTextAux (csvChar st c) r

/-- The CSV records of a text under the writer's own dialect. -/
def csvRecordsOfText (s : Str) : List (List Str) :=
  csvTextAux (.sr, [], []) s

/-- No character of the string is a `str.splitlines` boundary character. -/
abbrev breakFree (s : Str) : Prop := ∀ c ∈ s, isLineBreak c = false

/-- Every cell of the row is break-free. -/
abbrev rowBreakFree (row : List Str) : Prop := ∀ cell ∈ row, breakFree cell

/-- The reader state's pending field and completed fields are break-free. -/
abbrev stBreakFree (st : CSt) : Prop :=
  breakFree st.2.1 ∧ ∀ f ∈ st.2.2, breakFree f

/-! ### Specification-side definitions (written from the claims' wording,
for comparison with the code-side definitions above) -/

/-- Claim C7 wording: a word with its leading character capitalized and the
remaining letters left as-is. -/
def capWordAsIs (w : Str) : Str :=
  match w with
  | [] => []
  | c :: r => c.toUpper :: r

/-- Claim C7 as stated: trim, split on whitespace; one token is the sole
first name with empty last name, otherwise all-but-last join as the first
name and the last token is the last name; each resulting word's leading
character is capitalized with the rest left as-is. -/
def specC7NameOrig (cell : Str) : Str × Str :=
  match pySplit (pyStrip cell) with
  | [] => ([], [])
  | [t] => (capWordAsIs t, [])
  | ps => (joinSpace (ps.dropLast.map capWordAsIs), capWordAsIs (ps.getLastD []))

/-- Amended claim C7: the transformation Python's `str.capitalize` applies
to each of the two name fields as a whole: first character uppercased, all
remaining characters lowercased. -/
def capFieldPython (w : Str) : Str :=
  match w with
  | [] => []
  | c :: r => c.toUpper :: r.map Char.toLower

/-- Amended claim C7: trim and split as before, but the two resulting
fields (not each word) are capitalized, with the remaining characters
lowercased. -/
def specC7Name (cell : Str) : Str × Str :=
  match pySplit (pyStrip cell) with
  | [] => ([], [])
  | [t] => (capFieldPython t, [])
  | ps => (capFieldPython (joinSpace ps.dropLast), capFieldPython (ps.getLastD []))

/-- Claim C6 wording: the match starting at one position, if any — a
one-letter label `C|H|W|B` immediately followed by a colon and a
(non-empty) run of digits/spaces/hyphens/parentheses. -/
def claimPhoneAt : Str → Option (Char × Str)
  | c :: ':' :: r2 =>
    if isLabel c = true ∧ r2.takeWhile phoneClass ≠ [] then
      some (c, r2.takeWhile phoneClass)
    else none
  | _ => none

/-- Claim C6 wording: every occurrence, listed position by position. -/
def claimPhoneMatches (raw : Str) : List (Char × Str) :=
  raw.tails.filterMap claimPhoneAt

/-- First label (in a priority order) with a candidate, else empty. -/
def specC6Pick (f : Char → Option Str) : List Char → Str
  | [] => []
  | l :: ls =>
    match f l with
    | some v => v
    | none => specC6Pick f ls

/-- Claim C6 as stated: the candidate of a label is the digit-strip of its
last occurrence's matched number — an empty digit-strip still counts as
that label's candidate. -/
def claimCandidatesOrig (raw : Str) (l : Char) : Option Str :=
  (((claimPhoneMatches raw).filter fun m => m.1 = l).getLast?).map
    fun m => m.2.filter Char.isDigit

/-- Claim C6 as stated: return the first candidate present in priority
order `C > H > W > B`, or empty if no label matched. -/
def specC6PhoneOrig (raw : Str) : Str :=
  specC6Pick (claimCandidatesOrig raw) phonePriority

/-- Amended claim C6: a match whose digit-strip is empty contributes no
candidate; among the remaining digit-strips of a label's occurrences the
last one wins. -/
def claimCandidates (raw : Str) (l : Char) : Option Str :=
  ((((claimPhoneMatches raw).filter fun m => m.1 = l).map
      fun m => m.2.filter Char.isDigit).filter fun d => d ≠ []).getLast?

/-- Amended claim C6: first stored candidate in priority order
`C > H > W > B`, else empty. -/
def specC6Phone (raw : Str) : Str :=
  specC6Pick (claimCandidates raw) phonePriority

/-! ### Helper lemmas about `pyStrip`, `pySplit` and `joinSpace` -/

theorem getLastD_mem : ∀ (l : List Str) (d : Str), l ≠ [] → l.getLastD d ∈ l := by
  intro l
  induction l with
  | nil => simp
  | cons a t ih =>
    intro d _
    rcases t with _ | ⟨b, bs⟩
    · simp [List.getLastD]
    · rw [List.getLastD_cons]
      exact List.mem_cons_of_mem a (ih a (by simp))

theorem pyCapitalize_eq_capFieldPython (w : Str) :
    pyCapitalize w = capFieldPython w := by
  cases w <;> rfl

theorem pyStrip_eq_rdropWhile (s : Str) :
    pyStrip s = (s.dropWhile pyIsSpace).rdropWhile pyIsSpace := rfl

theorem dropWhile_head_false (p : Char → Bool) :
    ∀ (l : Str) (c : Char) (r : Str), l.dropWhile p = c :: r →
      p c = false := by
  intro l
  induction l with
  | nil => intro c r h; simp [List.dropWhile] at h
  | cons a t ih =>
    intro c r h
    rw [List.dropWhile_cons] at h
    by_cases hp : p a = true
    · rw [if_pos hp] at h; exact ih _ _ h
    · rw [if_neg hp] at h
      cases h
      simpa using hp

theorem pyStrip_head_not_space {s : Str} {c : Char} {r : Str}
    (h : pyStrip s = c :: r) : pyIsSpace c = false := by
  have hp : pyStrip s <+: s.dropWhile pyIsSpace := by
    rw [pyStrip_eq_rdropWhile]
    exact List.rdropWhile_prefix _ _
  rw [h] at hp
  obtain ⟨t, ht⟩ := hp
  exact dropWhile_head_false pyIsSpace s c (r ++ t) (by rw [← ht]; simp)

theorem pyStrip_reverse_eq (s : Str) :
    (pyStrip s).reverse = ((s.dropWhile pyIsSpace).reverse).dropWhile pyIsSpace := by
  simp [pyStrip]

theorem pyStrip_last_not_space {s : Str} {c : Char} {r : Str}
    (h : (pyStrip s).reverse = c :: r) : pyIsSpace c = false := by
  rw [pyStrip_reverse_eq] at h
  exact dropWhile_head_false pyIsSpace _ _ _ h

theorem pyStrip_idem (s : Str) : pyStrip (pyStrip s) = pyStrip s := by
  rcases hs : pyStrip s with _ | ⟨c, r⟩
  · rfl
  · have hc : pyIsSpace c = false := pyStrip_head_not_space hs
    have hrev : (pyStrip s).reverse ≠ [] := by rw [hs]; simp
    obtain ⟨c1, r1, hcr⟩ := List.exists_cons_of_ne_nil hrev
    have hc1 : pyIsSpace c1 = false := pyStrip_last_not_space hcr
    rw [hs] at hcr
    rw [← hs, pyStrip_eq_rdropWhile]
    have h1 : (pyStrip s).dropWhile pyIsSpace = pyStrip s := by
      rw [hs, List.dropWhile_cons, if_neg (by simp [hc])]
    rw [h1]
    show ((pyStrip s).reverse.dropWhile pyIsSpace).reverse = pyStrip s
    rw [hs, hcr, List.dropWhile_cons, if_neg (by simp [hc1]), ← hcr,
        List.reverse_reverse]

theorem pySplitAux_ne_nil :
    ∀ (s acc : Str), acc ≠ [] → pySplitAux acc s ≠ [] := by
  intro s
  induction s with
  | nil => intro acc h; simp [pySplitAux, h]
  | cons c r ih =>
    intro acc h
    unfold pySplitAux
    by_cases hp : pyIsSpace c = true
    · rw [if_pos hp, if_neg h]
      simp
    · rw [if_neg hp]
      exact ih (c :: acc) (by simp)

theorem pySplit_ne_nil {c : Char} {r : Str} (h : pyIsSpace c = false) :
    pySplit (c :: r) ≠ [] := by
  unfold pySplit pySplitAux
  rw [if_neg (by simp [h])]
  exact pySplitAux_ne_nil r [c] (by simp)

theorem pySplitAux_mem_ne_nil :
    ∀ (s acc t : Str), t ∈ pySplitAux acc s → t ≠ [] := by
  intro s
  induction s with
  | nil =>
    intro acc t h
    unfold pySplitAux at h
    by_cases ha : acc = []
    · rw [if_pos ha] at h; simp at h
    · rw [if_neg ha] at h
      simp only [List.mem_singleton] at h
      subst h
      simpa using ha
  | cons c r ih =>
    intro acc t h
    unfold pySplitAux at h
    by_cases hp : pyIsSpace c = true
    · rw [if_pos hp] at h
      by_cases ha : acc = []
      · rw [if_pos ha] at h; exact ih [] t h
      · rw [if_neg ha] at h
        rcases List.mem_cons.mp h with h1 | h1
        · subst h1; simpa using ha
        · exact ih [] t h1
    · rw [if_neg hp] at h
      exact ih (c :: acc) t h

theorem pySplit_mem_ne_nil {s t : Str} (h : t ∈ pySplit s) : t ≠ [] :=
  pySplitAux_mem_ne_nil s [] t h

theorem joinSpace_cons_ne_nil {t : Str} (rest : List Str) (h : t ≠ []) :
    joinSpace (t :: rest) ≠ [] := by
  rcases rest with _ | ⟨b, bs⟩
  · simpa [joinSpace, List.intercalate, List.intersperse] using h
  · simp only [joinSpace, List.intercalate, List.intersperse]
    intro hc
    rcases List.append_eq_nil.mp hc with ⟨h1, _⟩
    exact h h1

/-! ### Lemmas about the phone scanner -/

theorem class_not_label {c : Char} (h : phoneClass c = true) :
    isLabel c = false := by
  by_contra hne
  have hl : isLabel c = true := by
    cases hb : isLabel c
    · exact absurd hb hne
    · rfl
  have hc : ((c = 'C' ∨ c = 'H') ∨ c = 'W') ∨ c = 'B' := by
    simpa [isLabel] using hl
  rcases hc with ((rfl | rfl) | rfl) | rfl <;> exact absurd h (by decide)

theorem phoneStep_ms (st : PhSt) (ms : List (Char × Str)) (c : Char) :
    phoneStep (st, ms) c =
      ((phoneStep (st, []) c).1, ms ++ (phoneStep (st, []) c).2) := by
  cases st with
  | idle => simp [phoneStep]
  | seen l => by_cases h : c = ':' <;> simp [phoneStep, h]
  | collect l acc =>
    by_cases h1 : phoneClass c = true
    · simp [phoneStep, h1]
    · by_cases h2 : acc = [] <;> simp [phoneStep, h1, h2]

theorem foldl_phoneStep_ms (s : Str) :
    ∀ (st : PhSt) (ms : List (Char × Str)),
      s.foldl phoneStep (st, ms) =
        ((s.foldl phoneStep (st, [])).1,
         ms ++ (s.foldl phoneStep (st, [])).2) := by
  induction s with
  | nil => intro st ms; simp
  | cons c r ih =>
    intro st ms
    rw [List.foldl_cons, List.foldl_cons, phoneStep_ms]
    rcases hsc : phoneStep (st, []) c with ⟨st1, d⟩
    rw [ih st1 (ms ++ d), ih st1 d]
    simp [List.append_assoc]

theorem phoneEmitted_cons (st : PhSt) (c : Char) (r : Str) :
    phoneEmitted st (c :: r) =
      (phoneStep (st, []) c).2 ++
        phoneEmitted (phoneStep (st, []) c).1 r := by
  unfold phoneEmitted
  rw [List.foldl_cons]
  rcases hsc : phoneStep (st, []) c with ⟨st1, d⟩
  rw [foldl_phoneStep_ms r st1 d]
  rcases hX : r.foldl phoneStep (st1, []) with ⟨stf, msf⟩
  cases stf with
  | collect l acc => by_cases h : acc = [] <;> simp [h, List.append_assoc]
  | idle => simp
  | seen l => simp

theorem phoneEmitted_collect (s : Str) :
    ∀ (l : Char) (acc : Str),
      phoneEmitted (.collect l acc) s =
        (if acc.reverse ++ s.takeWhile phoneClass = [] then []
         else [(l, acc.reverse ++ s.takeWhile phoneClass)]) ++
        (match s.dropWhile phoneClass with
         | [] => []
         | c :: r => phoneEmitted (phIdleStep c) r) := by
  induction s with
  | nil =>
    intro l acc
    simp only [List.takeWhile_nil, List.dropWhile_nil, List.append_nil]
    by_cases h : acc = []
    · subst h
      rfl
    · have h2 : ¬ acc.reverse = [] := by simpa using h
      show (if acc = [] then [] else [(l, acc.reverse)]) = _
      rw [if_neg h, if_neg h2]
  | cons c r ih =>
    intro l acc
    rw [phoneEmitted_cons]
    by_cases hc : phoneClass c = true
    · have hstep : phoneStep (PhSt.collect l acc, []) c =
          (PhSt.collect l (c :: acc), []) := by simp [phoneStep, hc]
      rw [hstep]
      dsimp only
      rw [ih l (c :: acc)]
      rw [List.takeWhile_cons, if_pos hc, List.dropWhile_cons, if_pos hc]
      simp [List.append_assoc]
    · have hstep : phoneStep (PhSt.collect l acc, []) c =
          (phIdleStep c, if acc = [] then [] else [(l, acc.reverse)]) := by
        by_cases h2 : acc = [] <;> simp [phoneStep, hc, h2]
      rw [hstep]
      dsimp only
      rw [List.takeWhile_cons, if_neg hc, List.dropWhile_cons, if_neg hc]
      simp only [List.append_nil]
      by_cases h2 : acc = []
      · subst h2
        simp
      · have h3 : ¬ acc.reverse = [] := by simpa using h2
        rw [if_neg h2, if_neg h3]

theorem claimPhoneAt_not_colon {c c2 : Char} (r2 : Str)
    (h2 : ¬ c2 = ':') : claimPhoneAt (c :: c2 :: r2) = none := by
  unfold claimPhoneAt
  split
  · rename_i heq
    injection heq with h1 h2x
    injection h2x with h3 h4
    exact absurd h3 h2
  · rfl

theorem claimPhoneMatches_not_label {c : Char} (r : Str)
    (h : isLabel c = false) :
    claimPhoneMatches (c :: r) = claimPhoneMatches r := by
  unfold claimPhoneMatches
  rw [List.tails_cons, List.filterMap_cons]
  rcases r with _ | ⟨c2, r2⟩
  · rfl
  · by_cases h2 : c2 = ':'
    · subst h2
      have hat : claimPhoneAt (c :: ':' :: r2) = none := by
        show (if isLabel c = true ∧ r2.takeWhile phoneClass ≠ [] then
          some (c, r2.takeWhile phoneClass) else none) = none
        rw [if_neg (by simp [h])]
      rw [hat]
    · rw [claimPhoneAt_not_colon r2 h2]

theorem claimPhoneMatches_not_colon {c c2 : Char} (r2 : Str)
    (h2 : ¬ c2 = ':') :
    claimPhoneMatches (c :: c2 :: r2) = claimPhoneMatches (c2 :: r2) := by
  unfold claimPhoneMatches
  rw [List.tails_cons, List.filterMap_cons, claimPhoneAt_not_colon r2 h2]

theorem claimPhoneMatches_label_colon (c : Char) (r2 : Str) :
    claimPhoneMatches (c :: ':' :: r2) =
      (if isLabel c = true ∧ r2.takeWhile phoneClass ≠ [] then
        [(c, r2.takeWhile phoneClass)] else []) ++
      claimPhoneMatches (':' :: r2) := by
  unfold claimPhoneMatches
  rw [List.tails_cons, List.filterMap_cons]
  have hat : claimPhoneAt (c :: ':' :: r2) =
      (if isLabel c = true ∧ r2.takeWhile phoneClass ≠ [] then
        some (c, r2.takeWhile phoneClass) else none) := rfl
  rw [hat]
  by_cases hcond : isLabel c = true ∧ r2.takeWhile phoneClass ≠ []
  · rw [if_pos hcond, if_pos hcond]
    rfl
  · rw [if_neg hcond, if_neg hcond]
    rfl

theorem claimPhoneMatches_class_prefix :
    ∀ (run rest : Str), (∀ x ∈ run, phoneClass x = true) →
      claimPhoneMatches (run ++ rest) = claimPhoneMatches rest := by
  intro run
  induction run with
  | nil => intro rest _; rfl
  | cons x run1 ih =>
    intro rest hall
    rw [List.cons_append,
        claimPhoneMatches_not_label _
          (class_not_label (hall x (List.mem_cons_self _ _)))]
    exact ih rest fun y hy => hall y (List.mem_cons_of_mem _ hy)

theorem phoneEmitted_idle_eq_claim :
    ∀ (n : Nat) (s : Str), s.length ≤ n →
      phoneEmitted .idle s = claimPhoneMatches s := by
  intro n
  induction n with
  | zero =>
    intro s hs
    have h0 : s = [] := List.eq_nil_of_length_eq_zero (Nat.le_zero.mp hs)
    subst h0
    rfl
  | succ n ih =>
    intro s hs
    rcases s with _ | ⟨c, r⟩
    · rfl
    · by_cases hl : isLabel c = true
      · have hstep : phoneStep (PhSt.idle, []) c = (PhSt.seen c, []) := by
          simp [phoneStep, phIdleStep, hl]
        rw [phoneEmitted_cons, hstep]
        dsimp only
        rw [List.nil_append]
        rcases r with _ | ⟨c2, r2⟩
        · have h1 : phoneEmitted (PhSt.seen c) [] = [] := rfl
          have hc2 : claimPhoneMatches [c] = [] := rfl
          rw [h1, hc2]
        · by_cases h2 : c2 = ':'
          · subst h2
            have hstep2 : phoneStep (PhSt.seen c, []) ':' =
                (PhSt.collect c [], []) := by simp [phoneStep]
            rw [phoneEmitted_cons, hstep2]
            dsimp only
            rw [List.nil_append, phoneEmitted_collect]
            rw [claimPhoneMatches_label_colon,
                claimPhoneMatches_not_label _
                  (by decide : isLabel ':' = false)]
            have hsk : claimPhoneMatches r2 =
                claimPhoneMatches (r2.dropWhile phoneClass) := by
              conv_lhs => rw [← List.takeWhile_append_dropWhile
                (p := phoneClass) (l := r2)]
              exact claimPhoneMatches_class_prefix _ _
                fun x hx => List.mem_takeWhile_imp hx
            rw [hsk]
            have htail : (match r2.dropWhile phoneClass with
                | [] => ([] : List (Char × Str))
                | c3 :: r3 => phoneEmitted (phIdleStep c3) r3) =
                claimPhoneMatches (r2.dropWhile phoneClass) := by
              rcases hd : r2.dropWhile phoneClass with _ | ⟨c3, r3⟩
              · rfl
              · have hidle : phoneEmitted PhSt.idle (c3 :: r3) =
                    phoneEmitted (phIdleStep c3) r3 := by
                  rw [phoneEmitted_cons]
                  simp [phoneStep]
                show phoneEmitted (phIdleStep c3) r3 =
                  claimPhoneMatches (c3 :: r3)
                rw [← hidle]
                apply ih
                have h4 : (r2.dropWhile phoneClass).length ≤ r2.length :=
                  (List.dropWhile_suffix phoneClass).length_le
                rw [hd] at h4
                simp only [List.length_cons] at hs h4 ⊢
                omega
            rw [htail]
            simp only [List.reverse_nil, List.nil_append]
            by_cases htw : r2.takeWhile phoneClass = []
            · rw [if_pos htw, if_neg (fun hx => hx.2 htw)]
            · rw [if_neg htw, if_pos ⟨hl, htw⟩]
          · have hstep2 : phoneStep (PhSt.seen c, []) c2 =
                (phIdleStep c2, []) := by simp [phoneStep, h2]
            rw [phoneEmitted_cons, hstep2]
            dsimp only
            rw [List.nil_append]
            have hidle : phoneEmitted PhSt.idle (c2 :: r2) =
                phoneEmitted (phIdleStep c2) r2 := by
              rw [phoneEmitted_cons]
              simp [phoneStep]
            rw [← hidle, ih _ (by simp only [List.length_cons] at hs ⊢; omega)]
            exact (claimPhoneMatches_not_colon r2 h2).symm
      · have hl1 : isLabel c = false := by simpa using hl
        have hstep : phoneStep (PhSt.idle, []) c = (PhSt.idle, []) := by
          simp [phoneStep, phIdleStep, hl1]
        rw [phoneEmitted_cons, hstep]
        dsimp only
        rw [List.nil_append,
            ih r (by simp only [List.length_cons] at hs ⊢; omega),
            claimPhoneMatches_not_label r hl1]

theorem phoneDict_filter_map (l : Char) :
    ∀ ms : List (Char × Str),
      ((phoneDict ms).filter fun e => e.1 = l).map (fun e => e.2) =
        ((ms.filter fun m => m.1 = l).map
            fun m => m.2.filter Char.isDigit).filter fun d => d ≠ [] := by
  intro ms
  induction ms with
  | nil => rfl
  | cons m ms ih =>
    unfold phoneDict at ih ⊢
    rw [List.filterMap_cons]
    by_cases hd : m.2.filter Char.isDigit = []
    · have he : phoneDictEntry m = none := by
        unfold phoneDictEntry
        rw [if_pos hd]
      rw [he]
      by_cases hml : m.1 = l
      · rw [List.filter_cons_of_pos (by simp [hml]), List.map_cons,
            List.filter_cons_of_neg (by simp [hd])]
        exact ih
      · rw [List.filter_cons_of_neg (by simp [hml])]
        exact ih
    · have he : phoneDictEntry m =
          some (m.1, m.2.filter Char.isDigit) := by
        unfold phoneDictEntry
        rw [if_neg hd]
      rw [he]
      by_cases hml : m.1 = l
      · rw [List.filter_cons_of_pos (by simp [hml]), List.map_cons,
            List.filter_cons_of_pos (by simp [hml]), List.map_cons,
            List.filter_cons_of_pos (by simp [hd])]
        rw [ih]
      · rw [List.filter_cons_of_neg (by simp [hml]),
            List.filter_cons_of_neg (by simp [hml])]
        exact ih

theorem dictGet_phoneDict (ms : List (Char × Str)) (l : Char) :
    dictGet (phoneDict ms) l =
      (((ms.filter fun m => m.1 = l).map
          fun m => m.2.filter Char.isDigit).filter fun d => d ≠ []).getLast? := by
  unfold dictGet
  rw [← List.getLast?_map, phoneDict_filter_map l ms]

theorem pickPhone_eq_specC6Pick (d : List (Char × Str))
    (f : Char → Option Str) (h : ∀ l, dictGet d l = f l) :
    ∀ prio : List Char, pickPhone d prio = specC6Pick f prio := by
  intro prio
  induction prio with
  | nil => rfl
  | cons l ls ih =>
    unfold pickPhone specC6Pick
    rw [h l]
    rcases f l with _ | v
    · exact ih
    · rfl

/-! ### Lemmas about the header map, padding and extraction -/

theorem lastIdxOf_of_mem {headers : List Str} {name : Str}
    (h : name ∈ headers) :
    ∃ i, lastIdxOf name headers = some i ∧ i < headers.length ∧
      headers.get? i = some name := by
  obtain ⟨n, hn⟩ := List.mem_iff_get.mp h
  have hmem : ((n : Nat), name) ∈ headers.enum := by
    rw [List.mk_mem_enum_iff_getElem?]
    rw [List.getElem?_eq_getElem n.isLt]
    simp [← List.get_eq_getElem, hn]
  have hfil : ((n : Nat), name) ∈
      headers.enum.filter (fun e => decide (e.2 = name)) :=
    List.mem_filter.mpr ⟨hmem, by simp⟩
  have hne : headers.enum.filter (fun e => decide (e.2 = name)) ≠ [] :=
    List.ne_nil_of_mem hfil
  obtain ⟨e, he⟩ := Option.isSome_iff_exists.mp
    (List.getLast?_isSome.mpr hne)
  have hemem : e ∈ headers.enum.filter (fun e => decide (e.2 = name)) :=
    List.mem_of_getLast?_eq_some he
  have h1 := (List.mem_filter.mp hemem).1
  have h2 : e.2 = name := by simpa using (List.mem_filter.mp hemem).2
  rw [List.mem_enum_iff_getElem?] at h1
  refine ⟨e.1, ?_, ?_, ?_⟩
  · simp [lastIdxOf, he]
  · exact (List.getElem?_eq_some.mp h1).1
  · rw [List.get?_eq_getElem?, h1, h2]

theorem padTo_length (row : List Str) (n : Nat) :
    (padTo row n).length = max row.length n := by
  simp [padTo]
  omega

theorem padTo_of_ge {row : List Str} {n : Nat} (h : n ≤ row.length) :
    padTo row n = row := by
  simp [padTo, Nat.sub_eq_zero_of_le h]

theorem extractField_ok_of_mem {headers : List Str} {name : Str}
    (row : List Str) (fb : Nat) (h : name ∈ headers) :
    ∃ i, lastIdxOf name headers = some i ∧ i < headers.length ∧
      extractField headers row name fb =
        .ok (pyStrip ((padTo row headers.length).getD i [])) := by
  obtain ⟨i, hidx, hlt, _⟩ := lastIdxOf_of_mem h
  refine ⟨i, hidx, hlt, ?_⟩
  unfold extractField hGet
  rw [hidx]
  have hlen : i < (padTo row headers.length).length := by
    rw [padTo_length]
    omega
  have hsome := List.get?_eq_get hlen
  unfold cellAt
  dsimp only [Option.getD]
  rw [hsome]
  rw [List.getD_eq_getElem?_getD, ← List.get?_eq_getElem?, hsome]
  rfl

theorem getD_all_nil {l : List Str} (h : ∀ x ∈ l, x = ([] : Str))
    (i : Nat) : l.getD i [] = [] := by
  rw [List.getD_eq_getElem?_getD, ← List.get?_eq_getElem?]
  rcases hg : l.get? i with _ | x
  · rfl
  · have := h x (List.get?_mem hg)
    simp [this]

theorem split_name_pyStrip_ok (cell : Str) :
    ∃ p : Str × Str, split_name (pyStrip cell) = .ok p := by
  by_cases h0 : pyStrip cell = []
  · exact ⟨([], []), by rw [h0]; rfl⟩
  · obtain ⟨c, r, hcr⟩ := List.exists_cons_of_ne_nil h0
    have hc := pyStrip_head_not_space hcr
    have hne : pySplit (pyStrip cell) ≠ [] := by
      rw [hcr]; exact pySplit_ne_nil hc
    unfold split_name
    rw [if_neg h0, pyStrip_idem]
    rcases hts : pySplit (pyStrip cell) with _ | ⟨t, _ | ⟨t2, ts⟩⟩
    · exact absurd hts hne
    · exact ⟨(t, []), rfl⟩
    · exact ⟨_, rfl⟩

theorem recordOf_ok_of_split {customer : Str} {p : Str × Str}
    (hsn : split_name customer = .ok p) (seen : List DKey)
    (v vi mi ad ra pl pu bn pa ph : Str) :
    ∃ out, recordOf seen customer v vi mi ad ra pl pu bn pa ph =
      .ok out := by
  unfold recordOf
  by_cases h5 : v = [] ∨ v.length < 5
  · rw [if_pos h5]; exact ⟨_, rfl⟩
  · rw [if_neg h5, hsn]
    rcases p with ⟨f0, l0⟩
    dsimp only
    split_ifs <;> exact ⟨_, rfl⟩

theorem lastIdxOf_eq_none {headers : List Str} {name : Str}
    (hnm : name ∉ headers) : lastIdxOf name headers = none := by
  unfold lastIdxOf
  have hfil : headers.enum.filter (fun e => decide (e.2 = name)) = [] := by
    rw [List.filter_eq_nil_iff]
    intro e he
    simp only [decide_eq_true_eq]
    intro h2
    apply hnm
    rw [← h2]
    have hg := List.mem_enum_iff_getElem?.mp he
    exact List.getElem?_mem hg
  rw [hfil]
  rfl

theorem extractField_absent_in_range {headers row : List Str} {name : Str}
    {fb : Nat} (hnm : name ∉ headers)
    (hlt : fb < (padTo row headers.length).length) :
    extractField headers row name fb =
      .ok (pyStrip ((padTo row headers.length).getD fb [])) := by
  have hnone := lastIdxOf_eq_none hnm
  unfold extractField hGet
  rw [hnone]
  dsimp only [Option.getD]
  have hsome := List.get?_eq_get hlt
  unfold cellAt
  rw [hsome]
  rw [List.getD_eq_getElem?_getD, ← List.get?_eq_getElem?, hsome]
  rfl

theorem extractField_absent_oor {headers row : List Str} {name : Str}
    {fb : Nat} (hnm : name ∉ headers)
    (hge : ¬ fb < (padTo row headers.length).length) :
    extractField headers row name fb = .error () := by
  have hnone := lastIdxOf_eq_none hnm
  unfold extractField hGet
  rw [hnone]
  dsimp only [Option.getD]
  have hnone2 : (padTo row headers.length).get? fb = none := by
    rw [List.get?_eq_getElem?, List.getElem?_eq_none]
    omega
  unfold cellAt
  rw [hnone2]

theorem extractField_error_iff {headers row : List Str} {name : Str}
    {fb : Nat} :
    extractField headers row name fb = .error () ↔
      name ∉ headers ∧ ¬ fb < (padTo row headers.length).length := by
  constructor
  · intro h
    by_cases hm : name ∈ headers
    · obtain ⟨i, _, _, he⟩ := extractField_ok_of_mem row fb hm
      rw [he] at h
      exact Except.noConfusion h
    · by_cases hlt : fb < (padTo row headers.length).length
      · rw [extractField_absent_in_range hm hlt] at h
        exact Except.noConfusion h
      · exact ⟨hm, hlt⟩
  · intro h
    exact extractField_absent_oor h.1 h.2

theorem extractField_ok_total {headers row : List Str} {name : Str}
    {fb : Nat}
    (h : name ∈ headers ∨ fb < (padTo row headers.length).length) :
    ∃ cell, extractField headers row name fb = .ok (pyStrip cell) := by
  by_cases hm : name ∈ headers
  · obtain ⟨i, _, _, he⟩ := extractField_ok_of_mem row fb hm
    exact ⟨_, he⟩
  · rcases h with h | hlt
    · exact absurd h hm
    · exact ⟨_, extractField_absent_in_range hm hlt⟩

theorem processRow_ok {headers : List Str}
    (hall : ∀ nf ∈ recognizedFields, nf.1 ∈ headers)
    (seen : List DKey) (row : List Str) :
    ∃ out, processRow headers seen row = .ok out := by
  obtain ⟨i1, _, _, he1⟩ := extractField_ok_of_mem row 0
    (hall (str "Customer", 0) (by decide))
  obtain ⟨i2, _, _, he2⟩ := extractField_ok_of_mem row 1
    (hall (str "Vehicle", 1) (by decide))
  obtain ⟨i3, _, _, he3⟩ := extractField_ok_of_mem row 2
    (hall (str "VIN", 2) (by decide))
  obtain ⟨i4, _, _, he4⟩ := extractField_ok_of_mem row 3
    (hall (str "Mileage", 3) (by decide))
  obtain ⟨i5, _, _, he5⟩ := extractField_ok_of_mem row 4
    (hall (str "Appointment Date", 4) (by decide))
  obtain ⟨i6, _, _, he6⟩ := extractField_ok_of_mem row 5
    (hall (str "Rate", 5) (by decide))
  obtain ⟨i7, _, _, he7⟩ := extractField_ok_of_mem row 6
    (hall (str "P/L", 6) (by decide))
  obtain ⟨i8, _, _, he8⟩ := extractField_ok_of_mem row 7
    (hall (str "Purchase Date", 7) (by decide))
  obtain ⟨i9, _, _, he9⟩ := extractField_ok_of_mem row 8
    (hall (str "Bank Name", 8) (by decide))
  obtain ⟨i10, _, _, he10⟩ := extractField_ok_of_mem row 9
    (hall (str "Payment", 9) (by decide))
  obtain ⟨i11, _, _, he11⟩ := extractField_ok_of_mem row 11
    (hall (str "Phone Numbers", 11) (by decide))
  obtain ⟨p, hp⟩ := split_name_pyStrip_ok
    ((padTo row headers.length).getD i1 [])
  obtain ⟨out, hout⟩ := recordOf_ok_of_split hp seen
    (pyStrip ((padTo row headers.length).getD i2 []))
    (pyStrip ((padTo row headers.length).getD i3 []))
    (pyStrip ((padTo row headers.length).getD i4 []))
    (pyStrip ((padTo row headers.length).getD i5 []))
    (pyStrip ((padTo row headers.length).getD i6 []))
    (pyStrip ((padTo row headers.length).getD i7 []))
    (pyStrip ((padTo row headers.length).getD i8 []))
    (pyStrip ((padTo row headers.length).getD i9 []))
    (pyStrip ((padTo row headers.length).getD i10 []))
    (pyStrip ((padTo row headers.length).getD i11 []))
  refine ⟨out, ?_⟩
  unfold processRow
  rw [he1, he2, he3, he4, he5, he6, he7, he8, he9, he10, he11]
  exact hout

theorem processRows_ok {headers : List Str}
    (hall : ∀ nf ∈ recognizedFields, nf.1 ∈ headers) :
    ∀ (dataRows : List (List Str)) (seen : List DKey),
      ∃ recs, processRows headers seen dataRows = .ok recs := by
  intro dataRows
  induction dataRows with
  | nil => intro seen; exact ⟨[], rfl⟩
  | cons row rest ih =>
    intro seen
    obtain ⟨out, hout⟩ := processRow_ok hall seen row
    unfold processRows
    rw [hout]
    rcases out with ⟨_ | rec, seen1⟩
    · exact ih seen1
    · obtain ⟨recs, hrecs⟩ := ih seen1
      exact ⟨rec :: recs, by dsimp only; rw [hrecs]⟩

theorem processRow_cases (headers : List Str) (seen : List DKey)
    (row : List Str) :
    (processRow headers seen row = .error () ∧
      ∃ nf ∈ recognizedFields, nf.1 ∉ headers ∧
        ¬ nf.2 < (padTo row headers.length).length) ∨
    ((∃ out, processRow headers seen row = .ok out) ∧
      ∀ nf ∈ recognizedFields, nf.1 ∈ headers ∨
        nf.2 < (padTo row headers.length).length) := by
  have hg : ∀ (name : Str) (fb : Nat) (v : Str),
      extractField headers row name fb = .ok v →
      (name ∈ headers ∨ fb < (padTo row headers.length).length) := by
    intro name fb v hok
    by_contra hno
    push_neg at hno
    rw [extractField_error_iff.mpr ⟨hno.1, Nat.not_lt.mpr hno.2⟩] at hok
    exact Except.noConfusion hok
  rcases hx1 : extractField headers row (str "Customer") 0 with e | v1
  · exact Or.inl ⟨(by unfold processRow; rw [hx1]; rfl),
      ⟨(str "Customer", 0), by decide, extractField_error_iff.mp hx1⟩⟩
  rcases hx2 : extractField headers row (str "Vehicle") 1 with e | v2
  · exact Or.inl ⟨(by unfold processRow; rw [hx1, hx2]; rfl),
      ⟨(str "Vehicle", 1), by decide, extractField_error_iff.mp hx2⟩⟩
  rcases hx3 : extractField headers row (str "VIN") 2 with e | v3
  · exact Or.inl ⟨(by unfold processRow; rw [hx1, hx2, hx3]; rfl),
      ⟨(str "VIN", 2), by decide, extractField_error_iff.mp hx3⟩⟩
  rcases hx4 : extractField headers row (str "Mileage") 3 with e | v4
  · exact Or.inl ⟨(by unfold processRow; rw [hx1, hx2, hx3, hx4]; rfl),
      ⟨(str "Mileage", 3), by decide, extractField_error_iff.mp hx4⟩⟩
  rcases hx5 : extractField headers row (str "Appointment Date") 4 with e | v5
  · refine Or.inl ⟨?_, ⟨(str "Appointment Date", 4), by decide,
      extractField_error_iff.mp hx5⟩⟩
    unfold processRow
    rw [hx1, hx2, hx3, hx4, hx5]
    rfl
  rcases hx6 : extractField headers row (str "Rate") 5 with e | v6
  · refine Or.inl ⟨?_, ⟨(str "Rate", 5), by decide,
      extractField_error_iff.mp hx6⟩⟩
    unfold processRow
    rw [hx1, hx2, hx3, hx4, hx5, hx6]
    rfl
  rcases hx7 : extractField headers row (str "P/L") 6 with e | v7
  · refine Or.inl ⟨?_, ⟨(str "P/L", 6), by decide,
      extractField_error_iff.mp hx7⟩⟩
    unfold processRow
    rw [hx1, hx2, hx3, hx4, hx5, hx6, hx7]
    rfl
  rcases hx8 : extractField headers row (str "Purchase Date") 7 with e | v8
  · refine Or.inl ⟨?_, ⟨(str "Purchase Date", 7), by decide,
      extractField_error_iff.mp hx8⟩⟩
    unfold processRow
    rw [hx1, hx2, hx3, hx4, hx5, hx6, hx7, hx8]
    rfl
  rcases hx9 : extractField headers row (str "Bank Name") 8 with e | v9
  · refine Or.inl ⟨?_, ⟨(str "Bank Name", 8), by decide,
      extractField_error_iff.mp hx9⟩⟩
    unfold processRow
    rw [hx1, hx2, hx3, hx4, hx5, hx6, hx7, hx8, hx9]
    rfl
  rcases hx10 : extractField headers row (str "Payment") 9 with e | v10
  · refine Or.inl ⟨?_, ⟨(str "Payment", 9), by decide,
      extractField_error_iff.mp hx10⟩⟩
    unfold processRow
    rw [hx1, hx2, hx3, hx4, hx5, hx6, hx7, hx8, hx9, hx10]
    rfl
  rcases hx11 : extractField headers row (str "Phone Numbers") 11 with e | v11
  · refine Or.inl ⟨?_, ⟨(str "Phone Numbers", 11), by decide,
      extractField_error_iff.mp hx11⟩⟩
    unfold processRow
    rw [hx1, hx2, hx3, hx4, hx5, hx6, hx7, hx8, hx9, hx10, hx11]
    rfl
  have hshape : ∃ cell, v1 = pyStrip cell := by
    have h1 := hx1
    unfold extractField cellAt at h1
    rcases hgc : (padTo row headers.length).get?
        (hGet headers (str "Customer") 0) with _ | c
    · rw [hgc] at h1; exact Except.noConfusion h1
    · rw [hgc] at h1; exact ⟨c, (Except.ok.inj h1).symm⟩
  obtain ⟨cell, rfl⟩ := hshape
  obtain ⟨p, hp⟩ := split_name_pyStrip_ok cell
  obtain ⟨out, hout⟩ := recordOf_ok_of_split hp seen v2 v3 v4 v5 v6 v7 v8
    v9 v10 v11
  refine Or.inr ⟨⟨out, ?_⟩, ?_⟩
  · unfold processRow
    rw [hx1, hx2, hx3, hx4, hx5, hx6, hx7, hx8, hx9, hx10, hx11]
    exact hout
  · intro nf hm
    simp only [recognizedFields, List.mem_cons, List.not_mem_nil,
      or_false] at hm
    rcases hm with rfl | rfl | rfl | rfl | rfl | rfl | rfl | rfl | rfl |
      rfl | rfl
    · exact hg _ _ _ hx1
    · exact hg _ _ _ hx2
    · exact hg _ _ _ hx3
    · exact hg _ _ _ hx4
    · exact hg _ _ _ hx5
    · exact hg _ _ _ hx6
    · exact hg _ _ _ hx11
    · exact hg _ _ _ hx7
    · exact hg _ _ _ hx8
    · exact hg _ _ _ hx9
    · exact hg _ _ _ hx10

theorem processRow_error_iff (headers : List Str) (seen : List DKey)
    (row : List Str) :
    processRow headers seen row = .error () ↔
      ∃ nf ∈ recognizedFields, nf.1 ∉ headers ∧
        ¬ nf.2 < (padTo row headers.length).length := by
  rcases processRow_cases headers seen row with ⟨herr, hbad⟩ |
    ⟨⟨out, hok⟩, hgood⟩
  · exact iff_of_true herr hbad
  · refine iff_of_false (by rw [hok]; simp) ?_
    rintro ⟨nf, hm, hnm, hge⟩
    rcases hgood nf hm with h | h
    · exact hnm h
    · exact hge h

theorem processRows_error_iff (headers : List Str) :
    ∀ (dataRows : List (List Str)) (seen : List DKey),
      processRows headers seen dataRows = .error () ↔
        ∃ row ∈ dataRows, ∃ nf ∈ recognizedFields, nf.1 ∉ headers ∧
          ¬ nf.2 < (padTo row headers.length).length := by
  intro dataRows
  induction dataRows with
  | nil => intro seen; simp [processRows]
  | cons row rest ih =>
    intro seen
    rcases hpr : processRow headers seen row with e | ⟨orec, seen1⟩
    · refine iff_of_true (by unfold processRows; rw [hpr]) ?_
      exact ⟨row, List.mem_cons_self _ _,
        (processRow_error_iff headers seen row).mp hpr⟩
    · have hnotbad : ¬ ∃ nf ∈ recognizedFields, nf.1 ∉ headers ∧
          ¬ nf.2 < (padTo row headers.length).length := by
        intro hb
        have := (processRow_error_iff headers seen row).mpr hb
        rw [hpr] at this
        exact Except.noConfusion this
      rcases orec with _ | rec
      · unfold processRows
        rw [hpr]
        dsimp only
        rw [ih seen1]
        constructor
        · rintro ⟨r, hr, hb⟩
          exact ⟨r, List.mem_cons_of_mem _ hr, hb⟩
        · rintro ⟨r, hr, hb⟩
          rcases List.mem_cons.mp hr with rfl | hr
          · exact absurd hb hnotbad
          · exact ⟨r, hr, hb⟩
      · unfold processRows
        rw [hpr]
        dsimp only
        rcases hrest : processRows headers seen1 rest with e2 | recs
        · refine iff_of_true rfl ?_
          obtain ⟨r, hr, hb⟩ := (ih seen1).mp (by rw [hrest])
          exact ⟨r, List.mem_cons_of_mem _ hr, hb⟩
        · have hre : ¬ ∃ row1 ∈ rest, ∃ nf ∈ recognizedFields,
              nf.1 ∉ headers ∧
              ¬ nf.2 < (padTo row1 headers.length).length := by
            intro hb
            have := (ih seen1).mpr hb
            rw [hrest] at this
            exact Except.noConfusion this
          refine iff_of_false (by simp) ?_
          rintro ⟨r, hr, hb⟩
          rcases List.mem_cons.mp hr with rfl | hr
          · exact hnotbad hb
          · exact hre ⟨r, hr, hb⟩

/-! ### Characterization lemmas for the record step -/

theorem recordOf_emit (seen : List DKey)
    (c v vi mi ad ra pl pu bn pa ph f0 l0 a t : Str)
    (h5 : ¬(v = [] ∨ v.length < 5)) (hsn : split_name c = .ok (f0, l0))
    (hdt : parse_datetime ad = (a, t)) (ha : a ≠ []) (ht : t ≠ [])
    (hdup : ¬(vi ≠ [] ∧ (vi, a, t) ∈ seen)) :
    recordOf seen c v vi mi ad ra pl pu bn pa ph =
      .ok (some ⟨normalize_phone ph,
                 if f0 ≠ [] then pyCapitalize f0 else [],
                 if l0 ≠ [] then pyCapitalize l0 else [],
                 (parse_vehicle v).1, (parse_vehicle v).2.1,
                 (parse_vehicle v).2.2, vi, mi, a, t, ra, pu,
                 if bn ≠ [] then bn else pl, pa⟩, (vi, a, t) :: seen) := by
  unfold recordOf
  rw [if_neg h5, hsn]
  dsimp only
  rw [hdt]
  dsimp only
  rw [if_neg (by push_neg; exact ⟨ha, ht⟩ :
        ¬((a, t).1 = [] ∨ (a, t).2 = []))]
  rw [if_neg (by simpa using hdup :
        ¬(vi ≠ [] ∧ (vi, (a, t).1, (a, t).2) ∈ seen))]

theorem recordOf_drop_dup (seen : List DKey)
    (c v vi mi ad ra pl pu bn pa ph f0 l0 a t : Str)
    (h5 : ¬(v = [] ∨ v.length < 5)) (hsn : split_name c = .ok (f0, l0))
    (hdt : parse_datetime ad = (a, t)) (ha : a ≠ []) (ht : t ≠ [])
    (hvne : vi ≠ []) (hmem : (vi, a, t) ∈ seen) :
    recordOf seen c v vi mi ad ra pl pu bn pa ph = .ok (none, seen) := by
  unfold recordOf
  rw [if_neg h5, hsn]
  dsimp only
  rw [hdt]
  dsimp only
  rw [if_neg (by push_neg; exact ⟨ha, ht⟩ :
        ¬((a, t).1 = [] ∨ (a, t).2 = []))]
  rw [if_pos (⟨hvne, hmem⟩ :
        vi ≠ [] ∧ (vi, (a, t).1, (a, t).2) ∈ seen)]

/-! ### Writer / record-splitter roundtrip lemmas -/

theorem csvTextAux_cons_general (st : CSt) (c : Char) (r : Str)
    (hc : c ≠ '\r') :
    csvTextAux st (c :: r) =
      if st.1 = CMode.inq then csvTextAux (csvChar st c) r
      else if c = '\n' then emitRec st :: csvTextAux (CMode.sr, [], []) r
      else csvTextAux (csvChar st c) r := by
  cases r with
  | nil =>
    rw [csvTextAux.eq_4 st c [] (fun r2 h => by cases h), if_neg hc]
  | cons c2 r2 =>
    by_cases hc2 : c2 = '\n'
    · subst hc2
      rw [csvTextAux.eq_3 st c r2, if_neg hc]
    · rw [csvTextAux.eq_4 st c (c2 :: r2)
        (fun r3 h => hc2 (by injection h)), if_neg hc]

theorem csvTextAux_cons_ord (st : CSt) (c : Char) (r : Str)
    (h2 : c ≠ '\r') (h3 : c ≠ '\n') :
    csvTextAux st (c :: r) = csvTextAux (csvChar st c) r := by
  rw [csvTextAux_cons_general st c r h2]
  by_cases h : st.1 = CMode.inq
  · rw [if_pos h]
  · rw [if_neg h, if_neg h3]

theorem csvTextAux_inq_step (f : Str) (row : List Str) (c : Char) (r : Str) :
    csvTextAux (CMode.inq, f, row) (c :: r) =
      csvTextAux (csvChar (CMode.inq, f, row) c) r := by
  cases r with
  | nil =>
    rw [csvTextAux.eq_4 _ c [] (fun r2 h => by cases h), if_pos rfl]
  | cons c2 r2 =>
    by_cases hc2 : c2 = '\n'
    · subst hc2
      rw [csvTextAux.eq_3 _ c r2, if_pos rfl]
    · rw [csvTextAux.eq_4 _ c (c2 :: r2)
        (fun r3 h => hc2 (by injection h)), if_pos rfl]

theorem csvTextAux_crlf (st : CSt) (h : st.1 ≠ CMode.inq) (rest : Str) :
    csvTextAux st ('\r' :: '\n' :: rest) =
      emitRec st :: csvTextAux (CMode.sr, [], []) rest := by
  rw [csvTextAux.eq_3 st '\r' rest, if_neg h, if_pos rfl]

theorem needsQuote_false_mem {f : Str} (h : needsQuote f = false) :
    ∀ c ∈ f, c ≠ ',' ∧ c ≠ '"' ∧ c ≠ '\r' ∧ c ≠ '\n' := by
  intro c hc
  simp only [needsQuote, List.any_eq_false] at h
  have hc2 := h c hc
  simp only [Bool.or_eq_true, decide_eq_true_eq, not_or] at hc2
  obtain ⟨⟨⟨g1, g2⟩, g3⟩, g4⟩ := hc2
  exact ⟨g1, g2, g3, g4⟩

theorem csvTextAux_inf_walk (f : Str) :
    (∀ c ∈ f, c ≠ ',' ∧ c ≠ '\r' ∧ c ≠ '\n') →
    ∀ (acc : Str) (row : List Str) (rest : Str),
      csvTextAux (CMode.inf, acc, row) (f ++ rest) =
        csvTextAux (CMode.inf, f.reverse ++ acc, row) rest := by
  induction f with
  | nil => intro _ acc row rest; simp
  | cons c f ih =>
    intro hf acc row rest
    obtain ⟨h1, h3, h4⟩ := hf c (List.mem_cons_self c f)
    rw [List.cons_append, csvTextAux_cons_ord _ _ _ h3 h4]
    have hchar : csvChar (CMode.inf, acc, row) c = (CMode.inf, c :: acc, row) := by
      simp [csvChar, h1]
    rw [hchar, ih (fun d hd => hf d (List.mem_cons_of_mem c hd)) (c :: acc) row rest]
    simp

theorem csvTextAux_esc_walk (f : Str) :
    ∀ (acc : Str) (row : List Str) (rest : Str),
      csvTextAux (CMode.inq, acc, row) (escapeQuotes f ++ rest) =
        csvTextAux (CMode.inq, f.reverse ++ acc, row) rest := by
  induction f with
  | nil => intro acc row rest; simp [escapeQuotes]
  | cons c f ih =>
    intro acc row rest
    by_cases hc : c = '"'
    · subst hc
      have he : escapeQuotes ('"' :: f) = '"' :: '"' :: escapeQuotes f := by
        simp [escapeQuotes]
      rw [he, List.cons_append, List.cons_append, csvTextAux_inq_step]
      have h1 : csvChar (CMode.inq, acc, row) '"' = (CMode.qq, acc, row) := by
        simp [csvChar]
      rw [h1, csvTextAux_cons_ord _ _ _ (by decide) (by decide)]
      have h2 : csvChar (CMode.qq, acc, row) '"' = (CMode.inq, '"' :: acc, row) := by
        simp [csvChar]
      rw [h2, ih ('"' :: acc) row rest]
      simp
    · have he : escapeQuotes (c :: f) = c :: escapeQuotes f := by
        simp [escapeQuotes, hc]
      rw [he, List.cons_append, csvTextAux_inq_step]
      have h1 : csvChar (CMode.inq, acc, row) c = (CMode.inq, c :: acc, row) := by
        simp [csvChar, hc]
      rw [h1, ih (c :: acc) row rest]
      simp

theorem csvChar_start {ms : CMode} (hms : ms = CMode.sr ∨ ms = CMode.sf)
    (fAcc : Str) (row : List Str) (c : Char) :
    csvChar (ms, fAcc, row) c =
      (if c = '"' then (CMode.inq, fAcc, row)
       else if c = ',' then (CMode.sf, [], fAcc.reverse :: row)
       else (CMode.inf, [c], row)) := by
  rcases hms with rfl | rfl <;> rfl

theorem quoteField_comma (f : Str) (ms : CMode)
    (hms : ms = CMode.sr ∨ ms = CMode.sf) (row : List Str) (rest : Str) :
    csvTextAux (ms, [], row) (quoteField f ++ ',' :: rest) =
      csvTextAux (CMode.sf, [], f :: row) rest := by
  cases hq : needsQuote f with
  | false =>
    have hmem := needsQuote_false_mem hq
    have hqf : quoteField f = f := by simp [quoteField, hq]
    rw [hqf]
    cases f with
    | nil =>
      rw [List.nil_append, csvTextAux_cons_ord _ _ _ (by decide) (by decide)]
      rw [csvChar_start hms, if_neg (by decide), if_pos rfl]
      simp
    | cons c f2 =>
      obtain ⟨h1, h2, h3, h4⟩ := hmem c (List.mem_cons_self c f2)
      rw [List.cons_append, csvTextAux_cons_ord _ _ _ h3 h4]
      rw [csvChar_start hms, if_neg h2, if_neg h1]
      rw [csvTextAux_inf_walk f2
        (fun d hd =>
          let h := hmem d (List.mem_cons_of_mem c hd)
          ⟨h.1, h.2.2.1, h.2.2.2⟩) [c] row (',' :: rest)]
      rw [csvTextAux_cons_ord _ _ _ (by decide) (by decide)]
      have hch : csvChar (CMode.inf, f2.reverse ++ [c], row) ',' =
          (CMode.sf, [], (f2.reverse ++ [c]).reverse :: row) := by
        simp [csvChar]
      rw [hch]
      simp
  | true =>
    have hqf : quoteField f = '"' :: (escapeQuotes f ++ ['"']) := by
      simp [quoteField, hq]
    rw [hqf, List.cons_append, csvTextAux_cons_ord _ _ _ (by decide) (by decide)]
    rw [csvChar_start hms, if_pos rfl, List.append_assoc,
      List.singleton_append]
    rw [csvTextAux_esc_walk f [] row ('"' :: ',' :: rest)]
    simp only [List.append_nil]
    rw [csvTextAux_inq_step]
    have h1 : csvChar (CMode.inq, f.reverse, row) '"' = (CMode.qq, f.reverse, row) := by
      simp [csvChar]
    rw [h1, csvTextAux_cons_ord _ _ _ (by decide) (by decide)]
    have h2 : csvChar (CMode.qq, f.reverse, row) ',' =
        (CMode.sf, [], f.reverse.reverse :: row) := by
      simp [csvChar]
    rw [h2]
    simp

theorem quoteField_crlf (f : Str) (row : List Str) (rest : Str) :
    csvTextAux (CMode.sf, [], row) (quoteField f ++ '\r' :: '\n' :: rest) =
      (f :: row).reverse :: csvTextAux (CMode.sr, [], []) rest := by
  cases hq : needsQuote f with
  | false =>
    have hmem := needsQuote_false_mem hq
    have hqf : quoteField f = f := by simp [quoteField, hq]
    rw [hqf]
    cases f with
    | nil =>
      rw [List.nil_append, csvTextAux_crlf _ (fun hx => CMode.noConfusion hx) rest]
      simp [emitRec]
    | cons c f2 =>
      obtain ⟨h1, h2, h3, h4⟩ := hmem c (List.mem_cons_self c f2)
      rw [List.cons_append, csvTextAux_cons_ord _ _ _ h3 h4]
      rw [csvChar_start (Or.inr rfl), if_neg h2, if_neg h1]
      rw [csvTextAux_inf_walk f2
        (fun d hd =>
          let h := hmem d (List.mem_cons_of_mem c hd)
          ⟨h.1, h.2.2.1, h.2.2.2⟩) [c] row ('\r' :: '\n' :: rest)]
      rw [csvTextAux_crlf _ (fun hx => CMode.noConfusion hx) rest]
      simp [emitRec]
  | true =>
    have hqf : quoteField f = '"' :: (escapeQuotes f ++ ['"']) := by
      simp [quoteField, hq]
    rw [hqf, List.cons_append, csvTextAux_cons_ord _ _ _ (by decide) (by decide)]
    rw [csvChar_start (Or.inr rfl), if_pos rfl, List.append_assoc,
      List.singleton_append]
    rw [csvTextAux_esc_walk f [] row ('"' :: '\r' :: '\n' :: rest)]
    simp only [List.append_nil]
    rw [csvTextAux_inq_step]
    have h1 : csvChar (CMode.inq, f.reverse, row) '"' = (CMode.qq, f.reverse, row) := by
      simp [csvChar]
    rw [h1, csvTextAux_crlf _ (fun hx => CMode.noConfusion hx) rest]
    simp [emitRec]

theorem csvJoinRow_singleton (f : Str) : csvJoinRow [f] = quoteField f := by
  simp [csvJoinRow, List.intercalate]

theorem csvJoinRow_cons_cons (f g : Str) (t : List Str) :
    csvJoinRow (f :: g :: t) = quoteField f ++ ',' :: csvJoinRow (g :: t) := by
  simp [csvJoinRow, List.intercalate, List.intersperse]

theorem csvRow_parse : ∀ (cells : List Str), cells ≠ [] →
    ∀ (row : List Str) (rest : Str),
      csvTextAux (CMode.sf, [], row) (csvJoinRow cells ++ '\r' :: '\n' :: rest) =
        (row.reverse ++ cells) :: csvTextAux (CMode.sr, [], []) rest := by
  intro cells
  induction cells with
  | nil => intro h; exact absurd rfl h
  | cons f t ih =>
    intro _ row rest
    cases t with
    | nil =>
      rw [csvJoinRow_singleton, quoteField_crlf]
      simp
    | cons g t2 =>
      rw [csvJoinRow_cons_cons, List.append_assoc, List.cons_append]
      rw [quoteField_comma f CMode.sf (Or.inr rfl) row _]
      rw [ih (List.cons_ne_nil g t2) (f :: row) rest]
      simp

theorem csvWriteRow_parse (c1 c2 : Str) (t : List Str) (rest : Str) :
    csvTextAux (CMode.sr, [], []) (csvWriteRow (c1 :: c2 :: t) ++ rest) =
      (c1 :: c2 :: t) :: csvTextAux (CMode.sr, [], []) rest := by
  rw [csvWriteRow, List.append_assoc]
  simp only [List.cons_append, List.nil_append]
  rw [csvJoinRow_cons_cons, List.append_assoc, List.cons_append]
  rw [quoteField_comma c1 CMode.sr (Or.inl rfl) []
    (csvJoinRow (c2 :: t) ++ '\r' :: '\n' :: rest)]
  rw [csvRow_parse (c2 :: t) (List.cons_ne_nil c2 t) [c1] rest]
  simp

theorem csvWrite_cons (r : List Str) (rs : List (List Str)) :
    csvWrite (r :: rs) = csvWriteRow r ++ csvWrite rs := by
  simp [csvWrite]

theorem csvWrite_roundtrip : ∀ (rows : List (List Str)),
    (∀ r ∈ rows, 2 ≤ r.length) →
    csvRecordsOfText (csvWrite rows) = rows := by
  intro rows
  induction rows with
  | nil => intro _; rfl
  | cons r rs ih =>
    intro h
    have h2 : 2 ≤ r.length := h r (List.mem_cons_self r rs)
    rcases r with _ | ⟨c1, _ | ⟨c2, t⟩⟩
    · exact absurd h2 (by simp)
    · exact absurd h2 (by simp)
    · show csvTextAux (CMode.sr, [], []) (csvWrite ((c1 :: c2 :: t) :: rs)) = _
      rw [csvWrite_cons, csvWriteRow_parse]
      exact congrArg _ (ih fun x hx => h x (List.mem_cons_of_mem _ hx))

theorem recToRow_length (r : Rec) : (recToRow r).length = 14 := rfl

theorem outRows_two_le (recs : List Rec) :
    ∀ r ∈ outFieldnames :: recs.map recToRow, 2 ≤ r.length := by
  intro r hr
  rcases List.mem_cons.mp hr with rfl | hm
  · decide
  · obtain ⟨x, _, rfl⟩ := List.mem_map.mp hm
    rw [recToRow_length]
    decide

/-! ### Break-free strings: character classes, substrings, `splitlines` -/

theorem break_not_digit {c : Char} (hb : isLineBreak c = true) :
    c.isDigit = false := by
  simp only [isLineBreak, Bool.or_eq_true, decide_eq_true_eq] at hb
  rcases hb with ((((((((rfl | rfl) | rfl) | rfl) | rfl) | rfl) | rfl) | rfl) | rfl) | rfl <;>
    decide

theorem digit_not_break {c : Char} (h : c.isDigit = true) :
    isLineBreak c = false := by
  cases hb : isLineBreak c
  · rfl
  · rw [break_not_digit hb] at h
    exact Bool.noConfusion h

theorem toUpper_not_break {c : Char} (h : isLineBreak c = false) :
    isLineBreak (Char.toUpper c) = false := by
  have hb : ∀ m < 123, 97 ≤ m → isLineBreak (Char.ofNat (m - 32)) = false := by
    decide
  simp only [Char.toUpper]
  split_ifs with hc
  · exact hb (Char.toNat c) (by omega) hc.1
  · exact h

theorem toLower_not_break {c : Char} (h : isLineBreak c = false) :
    isLineBreak (Char.toLower c) = false := by
  have hb : ∀ m < 91, 65 ≤ m → isLineBreak (Char.ofNat (m + 32)) = false := by
    decide
  simp only [Char.toLower]
  split_ifs with hc
  · exact hb (Char.toNat c) (by omega) hc.1
  · exact h

theorem containsSub_mem (needle : Str) :
    ∀ (s : Str), containsSub needle s = true → ∀ c ∈ needle, c ∈ s := by
  intro s
  induction s with
  | nil =>
    intro h c hc
    simp only [containsSub, List.isEmpty_iff] at h
    subst h
    cases hc
  | cons a r ih =>
    intro h c hc
    simp only [containsSub, Bool.or_eq_true] at h
    rcases h with h | h
    · exact (List.isPrefixOf_iff_prefix.mp h).subset hc
    · exact List.mem_cons_of_mem a (ih h c hc)

theorem pyStrip_sub {s : Str} {c : Char} (h : c ∈ pyStrip s) : c ∈ s := by
  unfold pyStrip at h
  rw [List.mem_reverse] at h
  have h2 := (List.dropWhile_suffix pyIsSpace).subset h
  rw [List.mem_reverse] at h2
  exact (List.dropWhile_suffix pyIsSpace).subset h2

theorem splitlinesAux_step {c : Char} (hc : isLineBreak c = false)
    (acc s : Str) :
    splitlinesAux acc (c :: s) = splitlinesAux (c :: acc) s := by
  have hneg : ¬ (isLineBreak c = true) := by rw [hc]; decide
  cases s with
  | nil =>
    rw [splitlinesAux.eq_3 acc c [] (fun r1 h1 h2 => by cases h2), if_neg hneg]
  | cons c2 r2 =>
    by_cases hc2 : c = '\r' ∧ c2 = '\n'
    · exact absurd hc (by rw [hc2.1]; decide)
    · rw [splitlinesAux.eq_3 acc c (c2 :: r2)
        (fun r1 h1 h2 => hc2 ⟨h1, by injection h2⟩), if_neg hneg]

theorem splitlinesAux_walk (l : Str) :
    breakFree l → ∀ (acc rest : Str),
      splitlinesAux acc (l ++ rest) = splitlinesAux (l.reverse ++ acc) rest := by
  induction l with
  | nil => intro _ acc rest; simp
  | cons c l ih =>
    intro hl acc rest
    rw [List.cons_append, splitlinesAux_step (hl c (List.mem_cons_self c l))]
    rw [ih (fun d hd => hl d (List.mem_cons_of_mem c hd)) (c :: acc) rest]
    simp

theorem pySplitlines_line {l : Str} (hl : breakFree l) (rest : Str) :
    pySplitlines (l ++ '\r' :: '\n' :: rest) = l :: pySplitlines rest := by
  unfold pySplitlines
  rw [splitlinesAux_walk l hl [] ('\r' :: '\n' :: rest), splitlinesAux.eq_2]
  simp

theorem pySplitlines_breakFree_aux : ∀ (n : Nat) (s : Str), s.length ≤ n →
    ∀ (acc : Str), (∀ c ∈ acc, isLineBreak c = false) →
    ∀ l ∈ splitlinesAux acc s, breakFree l := by
  intro n
  induction n with
  | zero =>
    intro s hs acc hacc l hl
    have hnil : s = [] := List.eq_nil_of_length_eq_zero (Nat.le_zero.mp hs)
    subst hnil
    rw [splitlinesAux.eq_1] at hl
    by_cases ha : acc = []
    · rw [if_pos ha] at hl
      cases hl
    · rw [if_neg ha] at hl
      rcases List.mem_singleton.mp hl with rfl
      intro c hc
      rw [List.mem_reverse] at hc
      exact hacc c hc
  | succ n ih =>
    intro s hs acc hacc l hl
    cases s with
    | nil =>
      rw [splitlinesAux.eq_1] at hl
      by_cases ha : acc = []
      · rw [if_pos ha] at hl
        cases hl
      · rw [if_neg ha] at hl
        rcases List.mem_singleton.mp hl with rfl
        intro c hc
        rw [List.mem_reverse] at hc
        exact hacc c hc
    | cons c r =>
      have hlen : r.length ≤ n := by
        simp only [List.length_cons] at hs
        omega
      by_cases hc : isLineBreak c = true
      · by_cases h2 : ∃ r2, c = '\r' ∧ r = '\n' :: r2
        · obtain ⟨r2, rfl, rfl⟩ := h2
          rw [splitlinesAux.eq_2] at hl
          rcases List.mem_cons.mp hl with rfl | hl
          · intro d hd
            rw [List.mem_reverse] at hd
            exact hacc d hd
          · exact ih r2 (by simp only [List.length_cons] at hlen; omega) []
              (fun d hd => absurd hd (List.not_mem_nil d)) l hl
        · rw [splitlinesAux.eq_3 acc c r (fun r1 ha hb => h2 ⟨r1, ha, hb⟩),
            if_pos hc] at hl
          rcases List.mem_cons.mp hl with rfl | hl
          · intro d hd
            rw [List.mem_reverse] at hd
            exact hacc d hd
          · exact ih r hlen [] (fun d hd => absurd hd (List.not_mem_nil d)) l hl
      · have hc' : isLineBreak c = false := by
          cases hcv : isLineBreak c
          · rfl
          · exact absurd hcv hc
        rw [splitlinesAux_step hc' acc r] at hl
        refine ih r hlen (c :: acc) ?_ l hl
        intro d hd
        rcases List.mem_cons.mp hd with rfl | hd
        · exact hc'
        · exact hacc d hd

theorem pySplitlines_breakFree (s : Str) : ∀ l ∈ pySplitlines s, breakFree l :=
  pySplitlines_breakFree_aux s.length s le_rfl []
    (fun c hc => absurd hc (List.not_mem_nil c))

theorem escapeQuotes_mem (f : Str) : ∀ c ∈ escapeQuotes f, c = '"' ∨ c ∈ f := by
  induction f with
  | nil => intro c hc; simp [escapeQuotes] at hc
  | cons a r ih =>
    intro c hc
    by_cases ha : a = '"'
    · subst ha
      rw [show escapeQuotes ('"' :: r) = '"' :: '"' :: escapeQuotes r from by
        simp [escapeQuotes]] at hc
      rcases List.mem_cons.mp hc with rfl | hc
      · exact Or.inl rfl
      rcases List.mem_cons.mp hc with rfl | hc
      · exact Or.inl rfl
      rcases ih c hc with h | h
      · exact Or.inl h
      · exact Or.inr (List.mem_cons_of_mem _ h)
    · rw [show escapeQuotes (a :: r) = a :: escapeQuotes r from by
        simp [escapeQuotes, ha]] at hc
      rcases List.mem_cons.mp hc with rfl | hc
      · exact Or.inr (List.mem_cons_self c r)
      rcases ih c hc with h | h
      · exact Or.inl h
      · exact Or.inr (List.mem_cons_of_mem _ h)

theorem quoteField_mem (f : Str) : ∀ c ∈ quoteField f, c = '"' ∨ c ∈ f := by
  intro c hc
  unfold quoteField at hc
  by_cases hq : needsQuote f = true
  · rw [if_pos hq] at hc
    rcases List.mem_cons.mp hc with rfl | hc
    · exact Or.inl rfl
    rcases List.mem_append.mp hc with h | h
    · exact escapeQuotes_mem f c h
    · rcases List.mem_singleton.mp h with rfl
      exact Or.inl rfl
  · rw [if_neg hq] at hc
    exact Or.inr hc

theorem csvJoinRow_mem : ∀ (cells : List Str), ∀ c ∈ csvJoinRow cells,
    c = ',' ∨ c = '"' ∨ ∃ f ∈ cells, c ∈ f := by
  intro cells
  induction cells with
  | nil => intro c hc; simp [csvJoinRow, List.intercalate] at hc
  | cons f t ih =>
    intro c hc
    cases t with
    | nil =>
      rw [csvJoinRow_singleton] at hc
      rcases quoteField_mem f c hc with h | h
      · exact Or.inr (Or.inl h)
      · exact Or.inr (Or.inr ⟨f, List.mem_cons_self f [], h⟩)
    | cons g t2 =>
      rw [csvJoinRow_cons_cons] at hc
      rcases List.mem_append.mp hc with h | h
      · rcases quoteField_mem f c h with h | h
        · exact Or.inr (Or.inl h)
        · exact Or.inr (Or.inr ⟨f, List.mem_cons_self f _, h⟩)
      · rcases List.mem_cons.mp h with rfl | h
        · exact Or.inl rfl
        · rcases ih c h with h | h | ⟨f2, hf2, hcf⟩
          · exact Or.inl h
          · exact Or.inr (Or.inl h)
          · exact Or.inr (Or.inr ⟨f2, List.mem_cons_of_mem f hf2, hcf⟩)

theorem csvJoinRow_breakFree {cells : List Str}
    (h : ∀ f ∈ cells, breakFree f) : breakFree (csvJoinRow cells) := by
  intro c hc
  rcases csvJoinRow_mem cells c hc with rfl | rfl | ⟨f, hf, hcf⟩
  · decide
  · decide
  · exact h f hf c hcf

theorem pySplitlines_csvWrite : ∀ (rows : List (List Str)),
    (∀ r ∈ rows, ∀ f ∈ r, breakFree f) →
    pySplitlines (csvWrite rows) = rows.map csvJoinRow := by
  intro rows
  induction rows with
  | nil => intro _; rfl
  | cons r rs ih =>
    intro h
    rw [show csvWrite (r :: rs) = csvJoinRow r ++ '\r' :: '\n' :: csvWrite rs
      from by rw [csvWrite_cons, csvWriteRow, List.append_assoc]; rfl]
    rw [pySplitlines_line (csvJoinRow_breakFree (h r (List.mem_cons_self r rs)))]
    rw [ih (fun x hx f hf => h x (List.mem_cons_of_mem r hx) f hf)]
    rfl

/-! ### Break-free propagation through the reader and the normalizers -/

theorem csvChar_pres {m : CMode} {f : Str} {row : List Str} {c : Char}
    (hf : breakFree f) (hrow : ∀ g ∈ row, breakFree g)
    (hc : isLineBreak c = false) : stBreakFree (csvChar (m, f, row) c) := by
  have hrev : breakFree f.reverse := by
    intro d hd
    rw [List.mem_reverse] at hd
    exact hf d hd
  have hnil : breakFree ([] : Str) := fun d hd => absurd hd (List.not_mem_nil d)
  have hcons : breakFree (c :: f) := by
    intro d hd
    rcases List.mem_cons.mp hd with rfl | hd
    · exact hc
    · exact hf d hd
  have hsing : breakFree [c] := by
    intro d hd
    rcases List.mem_singleton.mp hd with rfl
    exact hc
  have hqcons : breakFree ('"' :: f) := by
    intro d hd
    rcases List.mem_cons.mp hd with rfl | hd
    · decide
    · exact hf d hd
  have hpush : ∀ g ∈ f.reverse :: row, breakFree g := by
    intro g hg
    rcases List.mem_cons.mp hg with rfl | hg
    · exact hrev
    · exact hrow g hg
  cases m <;> simp only [csvChar] <;> split_ifs <;>
    first
      | exact ⟨hf, hrow⟩
      | exact ⟨hnil, hpush⟩
      | exact ⟨hsing, hrow⟩
      | exact ⟨hcons, hrow⟩
      | exact ⟨hqcons, hrow⟩

theorem foldl_csvChar_pres : ∀ (l : Str), breakFree l → ∀ (st : CSt),
    stBreakFree st → stBreakFree (l.foldl csvChar st) := by
  intro l
  induction l with
  | nil => intro _ st hst; exact hst
  | cons c r ih =>
    intro hl st hst
    rcases st with ⟨m, f, row⟩
    exact ih (fun d hd => hl d (List.mem_cons_of_mem c hd))
      (csvChar (m, f, row) c)
      (csvChar_pres hst.1 hst.2 (hl c (List.mem_cons_self c r)))

theorem csvEol_pres {m : CMode} {f : Str} {row : List Str}
    (hf : breakFree f) (hrow : ∀ g ∈ row, breakFree g) :
    (∀ row1 st1, csvEol (m, f, row) = (some row1, st1) →
      rowBreakFree row1 ∧ stBreakFree st1) ∧
    (∀ st1, csvEol (m, f, row) = (none, st1) → stBreakFree st1) := by
  have hfresh : stBreakFree ((CMode.sr, [], []) : CSt) :=
    ⟨fun d hd => absurd hd (List.not_mem_nil d),
     fun g hg => absurd hg (List.not_mem_nil g)⟩
  have hrec : rowBreakFree ((f.reverse :: row).reverse) := by
    intro cell hcell
    rw [List.mem_reverse] at hcell
    rcases List.mem_cons.mp hcell with rfl | hcell
    · intro d hd
      rw [List.mem_reverse] at hd
      exact hf d hd
    · exact hrow cell hcell
  have hmain : ∀ row1 st1,
      (some ((f.reverse :: row).reverse), ((CMode.sr, [], []) : CSt)) =
        (some row1, st1) →
      rowBreakFree row1 ∧ stBreakFree st1 := by
    intro row1 st1 h
    rw [Prod.mk.injEq] at h
    obtain ⟨h1, h2⟩ := h
    injection h1 with h1
    subst h1
    subst h2
    exact ⟨hrec, hfresh⟩
  cases m
  case sr =>
    constructor
    · intro row1 st1 h
      simp only [csvEol, Prod.mk.injEq] at h
      obtain ⟨h1, h2⟩ := h
      injection h1 with h1
      subst h1
      subst h2
      exact ⟨fun cell hcell => absurd hcell (List.not_mem_nil cell), hfresh⟩
    · intro st1 h
      simp only [csvEol, Prod.mk.injEq] at h
      exact absurd h.1 (by simp)
  case sf =>
    exact ⟨fun row1 st1 h => hmain row1 st1 h,
           fun st1 h => absurd ((Prod.mk.injEq _ _ _ _).mp h).1 (by simp)⟩
  case inf =>
    exact ⟨fun row1 st1 h => hmain row1 st1 h,
           fun st1 h => absurd ((Prod.mk.injEq _ _ _ _).mp h).1 (by simp)⟩
  case qq =>
    exact ⟨fun row1 st1 h => hmain row1 st1 h,
           fun st1 h => absurd ((Prod.mk.injEq _ _ _ _).mp h).1 (by simp)⟩
  case inq =>
    constructor
    · intro row1 st1 h
      simp only [csvEol, Prod.mk.injEq] at h
      exact absurd h.1 (by simp)
    · intro st1 h
      simp only [csvEol, Prod.mk.injEq] at h
      rw [← h.2]
      exact ⟨hf, hrow⟩

theorem csvLinesAux_breakFree : ∀ (lines : List Str),
    (∀ l ∈ lines, breakFree l) → ∀ (st : CSt), stBreakFree st →
    ∀ row ∈ csvLinesAux st lines, rowBreakFree row := by
  intro lines
  induction lines with
  | nil =>
    intro _ st hst row hrow
    rcases st with ⟨m, f, rw0⟩
    obtain ⟨hf, hr⟩ := hst
    cases m <;> simp only [csvLinesAux] at hrow
    case inq =>
      rcases List.mem_singleton.mp hrow with rfl
      intro cell hcell
      rw [List.mem_reverse] at hcell
      rcases List.mem_cons.mp hcell with rfl | hcell
      · intro d hd
        rw [List.mem_reverse] at hd
        exact hf d hd
      · exact hr cell hcell
    case sr => cases hrow
    case sf => cases hrow
    case inf => cases hrow
    case qq => cases hrow
  | cons l ls ih =>
    intro hl st hst row hrow
    have hst2 : stBreakFree (l.foldl csvChar st) :=
      foldl_csvChar_pres l (hl l (List.mem_cons_self l ls)) st hst
    rcases hst3 : l.foldl csvChar st with ⟨m2, f2, row2⟩
    rw [hst3] at hst2
    have hEol := csvEol_pres (m := m2) hst2.1 hst2.2
    simp only [csvLinesAux, csvLine, hst3] at hrow
    rcases he : csvEol (m2, f2, row2) with ⟨orow, st1⟩
    rw [he] at hrow
    cases orow with
    | some row1 =>
      obtain ⟨hbf1, hst1⟩ := hEol.1 row1 st1 he
      rcases List.mem_cons.mp hrow with rfl | hrow
      · exact hbf1
      · exact ih (fun x hx => hl x (List.mem_cons_of_mem l hx)) st1 hst1 row hrow
    | none =>
      exact ih (fun x hx => hl x (List.mem_cons_of_mem l hx)) st1
        (hEol.2 st1 he) row hrow

theorem csvReadLines_breakFree (lines : List Str)
    (h : ∀ l ∈ lines, breakFree l) :
    ∀ row ∈ csvReadLines lines, rowBreakFree row :=
  csvLinesAux_breakFree lines h (CMode.sr, [], [])
    ⟨fun d hd => absurd hd (List.not_mem_nil d),
     fun g hg => absurd hg (List.not_mem_nil g)⟩

theorem dictGet_val_mem {d : List (Char × Str)} {k : Char} {v : Str}
    (h : dictGet d k = some v) : ∃ e ∈ d, e.2 = v := by
  unfold dictGet at h
  rcases hg : (d.filter fun e => e.1 = k).getLast? with _ | e
  · rw [hg] at h
    exact Option.noConfusion h
  · rw [hg] at h
    injection h with h1
    have he : e ∈ d.filter fun e => e.1 = k := List.mem_of_getLast?_eq_some hg
    exact ⟨e, List.mem_of_mem_filter he, h1⟩

theorem phoneDict_val {ms : List (Char × Str)} {e : Char × Str}
    (h : e ∈ phoneDict ms) : ∃ m ∈ ms, e.2 = m.2.filter Char.isDigit := by
  unfold phoneDict at h
  obtain ⟨m, hm, he⟩ := List.mem_filterMap.mp h
  refine ⟨m, hm, ?_⟩
  unfold phoneDictEntry at he
  by_cases hd : m.2.filter Char.isDigit = []
  · rw [if_pos hd] at he
    exact Option.noConfusion he
  · rw [if_neg hd] at he
    injection he with he
    rw [← he]

theorem pickPhone_val (d : List (Char × Str)) :
    ∀ (ls : List Char), pickPhone d ls = [] ∨
      ∃ e ∈ d, e.2 = pickPhone d ls := by
  intro ls
  induction ls with
  | nil => exact Or.inl rfl
  | cons l ls ih =>
    simp only [pickPhone]
    rcases hg : dictGet d l with _ | v
    · exact ih
    · exact Or.inr (dictGet_val_mem hg)

theorem normalize_phone_digits (raw : Str) :
    ∀ c ∈ normalize_phone raw, c.isDigit = true := by
  intro c hc
  unfold normalize_phone at hc
  by_cases hr : raw = []
  · rw [if_pos hr] at hc
    cases hc
  · rw [if_neg hr] at hc
    rcases pickPhone_val (phoneDict (phoneMatches raw)) phonePriority with
      h | ⟨e, he, hev⟩
    · rw [h] at hc
      cases hc
    · rw [← hev] at hc
      obtain ⟨m2, _, hm2⟩ := phoneDict_val he
      rw [hm2] at hc
      exact (List.mem_filter.mp hc).2

theorem normalize_phone_breakFree (raw : Str) :
    breakFree (normalize_phone raw) :=
  fun c hc => digit_not_break (normalize_phone_digits raw c hc)

theorem pySplitAux_sub : ∀ (s acc t : Str), t ∈ pySplitAux acc s →
    ∀ c ∈ t, c ∈ s ∨ c ∈ acc := by
  intro s
  induction s with
  | nil =>
    intro acc t ht c hc
    simp only [pySplitAux] at ht
    by_cases ha : acc = []
    · rw [if_pos ha] at ht
      cases ht
    · rw [if_neg ha] at ht
      rcases List.mem_singleton.mp ht with rfl
      rw [List.mem_reverse] at hc
      exact Or.inr hc
  | cons a r ih =>
    intro acc t ht c hc
    simp only [pySplitAux] at ht
    by_cases hsp : pyIsSpace a = true
    · rw [if_pos hsp] at ht
      by_cases ha : acc = []
      · rw [if_pos ha] at ht
        rcases ih [] t ht c hc with h | h
        · exact Or.inl (List.mem_cons_of_mem a h)
        · cases h
      · rw [if_neg ha] at ht
        rcases List.mem_cons.mp ht with rfl | ht
        · rw [List.mem_reverse] at hc
          exact Or.inr hc
        · rcases ih [] t ht c hc with h | h
          · exact Or.inl (List.mem_cons_of_mem a h)
          · cases h
    · rw [if_neg hsp] at ht
      rcases ih (a :: acc) t ht c hc with h | h
      · exact Or.inl (List.mem_cons_of_mem a h)
      · rcases List.mem_cons.mp h with rfl | h
        · exact Or.inl (List.mem_cons_self c r)
        · exact Or.inr h

theorem pySplit_sub {s t : Str} (h : t ∈ pySplit s) : ∀ c ∈ t, c ∈ s := by
  intro c hc
  rcases pySplitAux_sub s [] t h c hc with h2 | h2
  · exact h2
  · cases h2

theorem joinSpace_singleton (p : Str) : joinSpace [p] = p := by
  simp [joinSpace, List.intercalate]

theorem joinSpace_cons_cons (p q : Str) (t : List Str) :
    joinSpace (p :: q :: t) = p ++ ' ' :: joinSpace (q :: t) := by
  simp [joinSpace, List.intercalate, List.intersperse]

theorem joinSpace_sub : ∀ (parts : List Str), ∀ c ∈ joinSpace parts,
    c = ' ' ∨ ∃ p ∈ parts, c ∈ p := by
  intro parts
  induction parts with
  | nil =>
    intro c hc
    simp [joinSpace, List.intercalate] at hc
  | cons p t ih =>
    intro c hc
    cases t with
    | nil =>
      rw [joinSpace_singleton] at hc
      exact Or.inr ⟨p, List.mem_cons_self p [], hc⟩
    | cons q t2 =>
      rw [joinSpace_cons_cons] at hc
      rcases List.mem_append.mp hc with h | h
      · exact Or.inr ⟨p, List.mem_cons_self p _, h⟩
      · rcases List.mem_cons.mp h with rfl | h
        · exact Or.inl rfl
        · rcases ih c h with h | ⟨p2, hp2, hcp⟩
          · exact Or.inl h
          · exact Or.inr ⟨p2, List.mem_cons_of_mem p hp2, hcp⟩

theorem split_name_sub {full f0 l0 : Str}
    (h : split_name full = .ok (f0, l0)) :
    (∀ c ∈ f0, c = ' ' ∨ c ∈ full) ∧ (∀ c ∈ l0, c ∈ full) := by
  unfold split_name at h
  by_cases hf : full = []
  · rw [if_pos hf] at h
    injection h with h1
    injection h1 with h2 h3
    subst h2
    subst h3
    exact ⟨fun c hc => absurd hc (List.not_mem_nil c),
           fun c hc => absurd hc (List.not_mem_nil c)⟩
  · rw [if_neg hf] at h
    rcases hp : pySplit (pyStrip full) with _ | ⟨p, ps⟩
    · rw [hp] at h
      exact Except.noConfusion h
    · rw [hp] at h
      cases ps with
      | nil =>
        injection h with h1
        injection h1 with h2 h3
        subst h2
        subst h3
        constructor
        · intro c hc
          have hm : p ∈ pySplit (pyStrip full) := by
            rw [hp]
            exact List.mem_cons_self p []
          exact Or.inr (pyStrip_sub (pySplit_sub hm c hc))
        · intro c hc
          cases hc
      | cons p2 ps2 =>
        injection h with h1
        injection h1 with h2 h3
        subst h2
        subst h3
        have hmem : ∀ x ∈ (p :: p2 :: ps2), x ∈ pySplit (pyStrip full) := by
          intro x hx
          rw [hp]
          exact hx
        constructor
        · intro c hc
          rcases joinSpace_sub _ c hc with h4 | ⟨q, hq, hcq⟩
          · exact Or.inl h4
          · have hq2 : q ∈ (p :: p2 :: ps2) :=
              (List.dropLast_sublist _).subset hq
            exact Or.inr (pyStrip_sub (pySplit_sub (hmem q hq2) c hcq))
        · intro c hc
          have hlast : (p :: p2 :: ps2).getLastD [] ∈ (p :: p2 :: ps2) :=
            getLastD_mem _ [] (by simp)
          exact pyStrip_sub (pySplit_sub (hmem _ hlast) c hc)

theorem pyCapitalize_breakFree {s : Str} (h : breakFree s) :
    breakFree (pyCapitalize s) := by
  cases s with
  | nil => exact h
  | cons c r =>
    intro d hd
    simp only [pyCapitalize] at hd
    rcases List.mem_cons.mp hd with rfl | hd
    · exact toUpper_not_break (h c (List.mem_cons_self c r))
    · obtain ⟨x, hx, rfl⟩ := List.mem_map.mp hd
      exact toLower_not_break (h x (List.mem_cons_of_mem c hx))

theorem parse_vehicle_sub (v : Str) :
    (∀ c ∈ (parse_vehicle v).1, c ∈ v) ∧
    (∀ c ∈ (parse_vehicle v).2.1, c ∈ v) ∧
    (∀ c ∈ (parse_vehicle v).2.2, c = ' ' ∨ c ∈ v) := by
  unfold parse_vehicle
  by_cases h1 : v = [] ∨ v.length < 5
  · rw [if_pos h1]
    exact ⟨fun c hc => absurd hc (List.not_mem_nil c),
           fun c hc => absurd hc (List.not_mem_nil c),
           fun c hc => absurd hc (List.not_mem_nil c)⟩
  · rw [if_neg h1]
    rcases hp : pySplit v with _ | ⟨y, rest1⟩
    · exact ⟨fun c hc => absurd hc (List.not_mem_nil c),
             fun c hc => absurd hc (List.not_mem_nil c),
             fun c hc => absurd hc (List.not_mem_nil c)⟩
    · cases rest1 with
      | nil =>
        exact ⟨fun c hc => absurd hc (List.not_mem_nil c),
               fun c hc => absurd hc (List.not_mem_nil c),
               fun c hc => absurd hc (List.not_mem_nil c)⟩
      | cons mk rest =>
        dsimp only
        have hy : y ∈ pySplit v := by
          rw [hp]
          exact List.mem_cons_self y _
        have hmk : mk ∈ pySplit v := by
          rw [hp]
          exact List.mem_cons_of_mem y (List.mem_cons_self mk rest)
        by_cases h2 : y.all Char.isDigit = false ∨ y.length ≠ 4
        · rw [if_pos h2]
          exact ⟨fun c hc => absurd hc (List.not_mem_nil c),
                 fun c hc => absurd hc (List.not_mem_nil c),
                 fun c hc => absurd hc (List.not_mem_nil c)⟩
        · rw [if_neg h2]
          refine ⟨?_, ?_, ?_⟩
          · intro c hc
            exact pySplit_sub hy c (List.drop_subset _ y hc)
          · intro c hc
            exact pySplit_sub hmk c hc
          · intro c hc
            by_cases hr : rest ≠ []
            · rw [if_pos hr] at hc
              rcases joinSpace_sub rest c hc with h3 | ⟨q, hq, hcq⟩
              · exact Or.inl h3
              · have hq2 : q ∈ pySplit v := by
                  rw [hp]
                  exact List.mem_cons_of_mem y (List.mem_cons_of_mem mk hq)
                exact Or.inr (pySplit_sub hq2 c hcq)
            · rw [if_neg hr] at hc
              cases hc

theorem toDigitsCore_mem : ∀ (fuel n : Nat) (ds : Str) (c : Char),
    c ∈ Nat.toDigitsCore 10 fuel n ds → c ∈ ds ∨ c.isDigit = true := by
  intro fuel
  induction fuel with
  | zero =>
    intro n ds c h
    simp only [Nat.toDigitsCore] at h
    exact Or.inl h
  | succ f ih =>
    intro n ds c h
    simp only [Nat.toDigitsCore] at h
    have hd : ∀ m, m < 10 → (Nat.digitChar m).isDigit = true := by decide
    by_cases hz : n / 10 = 0
    · rw [if_pos hz] at h
      rcases List.mem_cons.mp h with rfl | h
      · exact Or.inr (hd _ (Nat.mod_lt n (by decide)))
      · exact Or.inl h
    · rw [if_neg hz] at h
      rcases ih (n / 10) (Nat.digitChar (n % 10) :: ds) c h with h | h
      · rcases List.mem_cons.mp h with rfl | h
        · exact Or.inr (hd _ (Nat.mod_lt n (by decide)))
        · exact Or.inl h
      · exact Or.inr h

theorem natStr_breakFree (n : Nat) : breakFree (natStr n) := by
  intro c hc
  unfold natStr Nat.toDigits at hc
  rcases toDigitsCore_mem (n + 1) n [] c hc with h | h
  · cases h
  · exact digit_not_break h

theorem pad2_breakFree (n : Nat) : breakFree (pad2 n) := by
  intro c hc
  unfold pad2 at hc
  by_cases h : n < 10
  · rw [if_pos h] at hc
    rcases List.mem_cons.mp hc with rfl | hc
    · decide
    · exact natStr_breakFree n c hc
  · rw [if_neg h] at hc
    exact natStr_breakFree n c hc

theorem getD_breakFree {l : List Str} (hl : ∀ x ∈ l, breakFree x) (i : Nat) :
    breakFree (l.getD i []) := by
  rw [List.getD_eq_getElem?_getD]
  rcases hg : l[i]? with _ | x
  · simp only [Option.getD_none]
    exact fun c hc => absurd hc (List.not_mem_nil c)
  · simp only [Option.getD_some]
    exact hl x (List.getElem?_mem hg)

theorem apptString_breakFree (dt : DT) : breakFree (apptString dt) := by
  have hw : ∀ x ∈ weekdayNames, breakFree x := by decide
  have hm : ∀ x ∈ monthNames, breakFree x := by decide
  intro c hc
  unfold apptString at hc
  rcases List.mem_append.mp hc with h1 | h1
  · rcases List.mem_append.mp h1 with h2 | h2
    · rcases List.mem_append.mp h2 with h3 | h3
      · rcases List.mem_append.mp h3 with h4 | h4
        · exact getD_breakFree hw _ c h4
        · exact (by decide : breakFree (str ", ")) c h4
      · exact getD_breakFree hm _ c h3
    · rcases List.mem_singleton.mp h2 with rfl
      decide
  · exact natStr_breakFree dt.day c h1

theorem timeString_breakFree (dt : DT) : breakFree (timeString dt) := by
  intro c hc
  unfold timeString at hc
  rcases List.mem_append.mp hc with h1 | h1
  · rcases List.mem_append.mp h1 with h2 | h2
    · exact pad2_breakFree dt.hour c h2
    · rcases List.mem_singleton.mp h2 with rfl
      decide
  · exact pad2_breakFree dt.minute c h1

theorem parse_datetime_breakFree (s : Str) :
    breakFree (parse_datetime s).1 ∧ breakFree (parse_datetime s).2 := by
  unfold parse_datetime
  by_cases h : s = []
  · rw [if_pos h]
    exact ⟨fun c hc => absurd hc (List.not_mem_nil c),
           fun c hc => absurd hc (List.not_mem_nil c)⟩
  · rw [if_neg h]
    rcases hp : strptimeAppt (pyStrip s) with _ | dt
    · exact ⟨fun c hc => absurd hc (List.not_mem_nil c),
             fun c hc => absurd hc (List.not_mem_nil c)⟩
    · dsimp only
      exact ⟨apptString_breakFree dt, timeString_breakFree dt⟩

/-! ### Shape of accepted records and break-freeness of their fields -/

theorem extractField_ok_shape {headers row : List Str} {name : Str} {fb : Nat}
    {v : Str} (h : extractField headers row name fb = .ok v) :
    ∃ cell, (cell ∈ row ∨ cell = []) ∧ v = pyStrip cell := by
  unfold extractField cellAt at h
  rcases hg : (padTo row headers.length).get? (hGet headers name fb) with _ | c
  · rw [hg] at h
    exact Except.noConfusion h
  · rw [hg] at h
    injection h with h1
    refine ⟨c, ?_, h1.symm⟩
    have hc : c ∈ padTo row headers.length := by
      rw [List.get?_eq_getElem?] at hg
      exact List.getElem?_mem hg
    unfold padTo at hc
    rcases List.mem_append.mp hc with h2 | h2
    · exact Or.inl h2
    · exact Or.inr (List.eq_of_mem_replicate h2)

theorem processRow_some_shape {headers : List Str} {seen : List DKey}
    {row : List Str} {rec : Rec} {seen1 : List DKey}
    (h : processRow headers seen row = .ok (some rec, seen1)) :
    ∃ v1 v2 v3 v4 v5 v6 v7 v8 v9 v10 v11 : Str,
      extractField headers row (str "Customer") 0 = .ok v1 ∧
      extractField headers row (str "Vehicle") 1 = .ok v2 ∧
      extractField headers row (str "VIN") 2 = .ok v3 ∧
      extractField headers row (str "Mileage") 3 = .ok v4 ∧
      extractField headers row (str "Appointment Date") 4 = .ok v5 ∧
      extractField headers row (str "Rate") 5 = .ok v6 ∧
      extractField headers row (str "P/L") 6 = .ok v7 ∧
      extractField headers row (str "Purchase Date") 7 = .ok v8 ∧
      extractField headers row (str "Bank Name") 8 = .ok v9 ∧
      extractField headers row (str "Payment") 9 = .ok v10 ∧
      extractField headers row (str "Phone Numbers") 11 = .ok v11 ∧
      recordOf seen v1 v2 v3 v4 v5 v6 v7 v8 v9 v10 v11 =
        .ok (some rec, seen1) := by
  unfold processRow at h
  rcases hx1 : extractField headers row (str "Customer") 0 with e | v1 <;>
    rw [hx1] at h
  · exact Except.noConfusion h
  rcases hx2 : extractField headers row (str "Vehicle") 1 with e | v2 <;>
    rw [hx2] at h
  · exact Except.noConfusion h
  rcases hx3 : extractField headers row (str "VIN") 2 with e | v3 <;>
    rw [hx3] at h
  · exact Except.noConfusion h
  rcases hx4 : extractField headers row (str "Mileage") 3 with e | v4 <;>
    rw [hx4] at h
  · exact Except.noConfusion h
  rcases hx5 : extractField headers row (str "Appointment Date") 4 with e | v5 <;>
    rw [hx5] at h
  · exact Except.noConfusion h
  rcases hx6 : extractField headers row (str "Rate") 5 with e | v6 <;>
    rw [hx6] at h
  · exact Except.noConfusion h
  rcases hx7 : extractField headers row (str "P/L") 6 with e | v7 <;>
    rw [hx7] at h
  · exact Except.noConfusion h
  rcases hx8 : extractField headers row (str "Purchase Date") 7 with e | v8 <;>
    rw [hx8] at h
  · exact Except.noConfusion h
  rcases hx9 : extractField headers row (str "Bank Name") 8 with e | v9 <;>
    rw [hx9] at h
  · exact Except.noConfusion h
  rcases hx10 : extractField headers row (str "Payment") 9 with e | v10 <;>
    rw [hx10] at h
  · exact Except.noConfusion h
  rcases hx11 : extractField headers row (str "Phone Numbers") 11 with e | v11 <;>
    rw [hx11] at h
  · exact Except.noConfusion h
  exact ⟨v1, v2, v3, v4, v5, v6, v7, v8, v9, v10, v11, rfl, rfl, rfl, rfl,
    rfl, rfl, rfl, rfl, rfl, rfl, rfl, h⟩

theorem recordOf_some_shape {seen seen1 : List DKey} {rec : Rec}
    {customer vehicle vin miles apptDate rate pl purchaseDate bankName
     payment phoneNumbers : Str}
    (h : recordOf seen customer vehicle vin miles apptDate rate pl
      purchaseDate bankName payment phoneNumbers = .ok (some rec, seen1)) :
    ∃ f0 l0 : Str, split_name customer = .ok (f0, l0) ∧
      rec = ⟨normalize_phone phoneNumbers,
             if f0 ≠ [] then pyCapitalize f0 else [],
             if l0 ≠ [] then pyCapitalize l0 else [],
             (parse_vehicle vehicle).1, (parse_vehicle vehicle).2.1,
             (parse_vehicle vehicle).2.2, vin, miles,
             (parse_datetime apptDate).1, (parse_datetime apptDate).2,
             rate, purchaseDate,
             if bankName ≠ [] then bankName else pl, payment⟩ := by
  unfold recordOf at h
  by_cases h1 : vehicle = [] ∨ vehicle.length < 5
  · rw [if_pos h1] at h
    injection h with h2
    exact absurd (congrArg Prod.fst h2) (by simp)
  · rw [if_neg h1] at h
    rcases hs : split_name customer with e | p
    · rw [hs] at h
      exact Except.noConfusion h
    · rw [hs] at h
      obtain ⟨f0, l0⟩ := p
      refine ⟨f0, l0, rfl, ?_⟩
      dsimp only at h
      by_cases h2 : (parse_datetime apptDate).1 = [] ∨
          (parse_datetime apptDate).2 = []
      · rw [if_pos h2] at h
        injection h with h3
        exact absurd (congrArg Prod.fst h3) (by simp)
      · rw [if_neg h2] at h
        by_cases h3 : vin ≠ [] ∧
            ((vin, (parse_datetime apptDate).1, (parse_datetime apptDate).2) :
              DKey) ∈ seen
        · rw [if_pos h3] at h
          injection h with h4
          exact absurd (congrArg Prod.fst h4) (by simp)
        · rw [if_neg h3] at h
          injection h with h4
          simp only [Prod.mk.injEq, Option.some.injEq] at h4
          exact h4.1.symm

theorem recordOf_fields_good {seen seen1 : List DKey} {rec : Rec}
    {customer vehicle vin miles apptDate rate pl purchaseDate bankName
     payment phoneNumbers : Str}
    (hc : breakFree customer) (hv : breakFree vehicle) (hvin : breakFree vin)
    (hm : breakFree miles) (hr : breakFree rate) (hpl : breakFree pl)
    (hpd : breakFree purchaseDate) (hbn : breakFree bankName)
    (hpay : breakFree payment)
    (h : recordOf seen customer vehicle vin miles apptDate rate pl
      purchaseDate bankName payment phoneNumbers = .ok (some rec, seen1)) :
    (∀ f ∈ recToRow rec, breakFree f) ∧
    (∀ c ∈ rec.phone_number, c.isDigit = true) := by
  obtain ⟨f0, l0, hsn, hrec⟩ := recordOf_some_shape h
  obtain ⟨hf0, hl0⟩ := split_name_sub hsn
  have hbf0 : breakFree f0 := by
    intro d hd
    rcases hf0 d hd with rfl | hd2
    · decide
    · exact hc d hd2
  have hbl0 : breakFree l0 := fun d hd => hc d (hl0 d hd)
  have hfirst : breakFree (if f0 ≠ [] then pyCapitalize f0 else []) := by
    by_cases hz : f0 ≠ []
    · rw [if_pos hz]
      exact pyCapitalize_breakFree hbf0
    · rw [if_neg hz]
      exact fun d hd => absurd hd (List.not_mem_nil d)
  have hlast : breakFree (if l0 ≠ [] then pyCapitalize l0 else []) := by
    by_cases hz : l0 ≠ []
    · rw [if_pos hz]
      exact pyCapitalize_breakFree hbl0
    · rw [if_neg hz]
      exact fun d hd => absurd hd (List.not_mem_nil d)
  obtain ⟨hpv1, hpv2, hpv3⟩ := parse_vehicle_sub vehicle
  have hy : breakFree (parse_vehicle vehicle).1 := fun d hd => hv d (hpv1 d hd)
  have hmk : breakFree (parse_vehicle vehicle).2.1 :=
    fun d hd => hv d (hpv2 d hd)
  have hmd : breakFree (parse_vehicle vehicle).2.2 := by
    intro d hd
    rcases hpv3 d hd with rfl | hd2
    · decide
    · exact hv d hd2
  obtain ⟨hdt1, hdt2⟩ := parse_datetime_breakFree apptDate
  have hlender : breakFree (if bankName ≠ [] then bankName else pl) := by
    by_cases hz : bankName ≠ []
    · rw [if_pos hz]
      exact hbn
    · rw [if_neg hz]
      exact hpl
  subst hrec
  constructor
  · intro f hf
    simp only [recToRow, List.mem_cons, List.not_mem_nil, or_false] at hf
    rcases hf with rfl | rfl | rfl | rfl | rfl | rfl | rfl | rfl | rfl | rfl |
      rfl | rfl | rfl | rfl
    · exact normalize_phone_breakFree phoneNumbers
    · exact hfirst
    · exact hlast
    · exact hy
    · exact hmk
    · exact hmd
    · exact hvin
    · exact hm
    · exact hdt1
    · exact hdt2
    · exact hr
    · exact hpd
    · exact hlender
    · exact hpay
  · intro c hcph
    exact normalize_phone_digits phoneNumbers c hcph

theorem processRow_fields_good {headers : List Str} {seen seen1 : List DKey}
    {row : List Str} {rec : Rec}
    (hrow : rowBreakFree row)
    (h : processRow headers seen row = .ok (some rec, seen1)) :
    (∀ f ∈ recToRow rec, breakFree f) ∧
    (∀ c ∈ rec.phone_number, c.isDigit = true) := by
  obtain ⟨v1, v2, v3, v4, v5, v6, v7, v8, v9, v10, v11, hx1, hx2, hx3, hx4,
    hx5, hx6, hx7, hx8, hx9, hx10, hx11, hrec⟩ := processRow_some_shape h
  have hbf : ∀ {name : Str} {fb : Nat} {v : Str},
      extractField headers row name fb = .ok v → breakFree v := by
    intro name fb v hok
    obtain ⟨cell, hcell, rfl⟩ := extractField_ok_shape hok
    rcases hcell with hcell | rfl
    · exact fun d hd => hrow cell hcell d (pyStrip_sub hd)
    · exact fun d hd => absurd hd (List.not_mem_nil d)
  exact recordOf_fields_good (hbf hx1) (hbf hx2) (hbf hx3) (hbf hx4) (hbf hx6)
    (hbf hx7) (hbf hx8) (hbf hx9) (hbf hx10) hrec

theorem processRows_fields_good {headers : List Str} :
    ∀ (dataRows : List (List Str)), (∀ r ∈ dataRows, rowBreakFree r) →
    ∀ (seen : List DKey) (recs : List Rec),
      processRows headers seen dataRows = .ok recs →
      ∀ rec ∈ recs, (∀ f ∈ recToRow rec, breakFree f) ∧
        (∀ c ∈ rec.phone_number, c.isDigit = true) := by
  intro dataRows
  induction dataRows with
  | nil =>
    intro _ seen recs h rec hrec
    injection h with h1
    subst h1
    cases hrec
  | cons row rest ih =>
    intro hrows seen recs h rec hrec
    unfold processRows at h
    rcases hpr : processRow headers seen row with e | ⟨orec, seen2⟩
    · rw [hpr] at h
      exact Except.noConfusion h
    · rw [hpr] at h
      cases orec with
      | none =>
        exact ih (fun r hr => hrows r (List.mem_cons_of_mem row hr)) seen2
          recs h rec hrec
      | some rec0 =>
        dsimp only at h
        rcases hpr2 : processRows headers seen2 rest with e | recs0
        · rw [hpr2] at h
          exact Except.noConfusion h
        · rw [hpr2] at h
          injection h with h1
          subst h1
          rcases List.mem_cons.mp hrec with rfl | hrec
          · exact processRow_fields_good
              (hrows row (List.mem_cons_self row rest)) hpr
          · exact ih (fun r hr => hrows r (List.mem_cons_of_mem row hr)) seen2
              recs0 hpr2 rec hrec

theorem convertRows_fields_good {rows : List (List Str)} {recs : List Rec}
    (hrows : ∀ r ∈ rows, rowBreakFree r)
    (h : convertRows rows = .ok recs) :
    ∀ rec ∈ recs, (∀ f ∈ recToRow rec, breakFree f) ∧
      (∀ c ∈ rec.phone_number, c.isDigit = true) := by
  unfold convertRows at h
  rcases hfi : findHeaderIdx rows with _ | i
  · rw [hfi] at h
    exact Except.noConfusion h
  · rw [hfi] at h
    dsimp only at h
    split at h
    · exact Except.noConfusion h
    · rcases hpr : processRows (rows.getD i []) []
        (rows.drop (i + 1)) with e | recs0
      · rw [hpr] at h
        exact Except.noConfusion h
      · rw [hpr] at h
        injection h with h1
        subst h1
        exact processRows_fields_good (rows.drop (i + 1))
          (fun r hr => hrows r (List.drop_subset (i + 1) rows hr)) [] recs0 hpr

/-! ### Line-level reader/writer roundtrip -/

theorem foldl_inf_walk : ∀ (f : Str), (∀ c ∈ f, c ≠ ',') →
    ∀ (acc : Str) (row : List Str),
      List.foldl csvChar (CMode.inf, acc, row) f =
        (CMode.inf, f.reverse ++ acc, row) := by
  intro f
  induction f with
  | nil => intro _ acc row; simp
  | cons c f ih =>
    intro hf acc row
    have h1 : c ≠ ',' := hf c (List.mem_cons_self c f)
    show List.foldl csvChar (csvChar (CMode.inf, acc, row) c) f = _
    rw [show csvChar (CMode.inf, acc, row) c = (CMode.inf, c :: acc, row) from
      by simp [csvChar, h1]]
    rw [ih (fun d hd => hf d (List.mem_cons_of_mem c hd)) (c :: acc) row]
    simp

theorem foldl_esc_walk : ∀ (f : Str), ∀ (acc : Str) (row : List Str),
    List.foldl csvChar (CMode.inq, acc, row) (escapeQuotes f) =
      (CMode.inq, f.reverse ++ acc, row) := by
  intro f
  induction f with
  | nil => intro acc row; simp [escapeQuotes]
  | cons c f ih =>
    intro acc row
    by_cases hc : c = '"'
    · subst hc
      rw [show escapeQuotes ('"' :: f) = '"' :: '"' :: escapeQuotes f from by
        simp [escapeQuotes]]
      show List.foldl csvChar (csvChar (csvChar (CMode.inq, acc, row) '"') '"')
        (escapeQuotes f) = _
      rw [show csvChar (csvChar (CMode.inq, acc, row) '"') '"' =
          (CMode.inq, '"' :: acc, row) from by simp [csvChar]]
      rw [ih ('"' :: acc) row]
      simp
    · rw [show escapeQuotes (c :: f) = c :: escapeQuotes f from by
        simp [escapeQuotes, hc]]
      show List.foldl csvChar (csvChar (CMode.inq, acc, row) c)
        (escapeQuotes f) = _
      rw [show csvChar (CMode.inq, acc, row) c = (CMode.inq, c :: acc, row)
        from by simp [csvChar, hc]]
      rw [ih (c :: acc) row]
      simp

theorem foldl_quoteField_state (f : Str) {ms : CMode}
    (hms : ms = CMode.sr ∨ ms = CMode.sf) (row : List Str) :
    List.foldl csvChar (ms, [], row) (quoteField f) =
      if needsQuote f = true then ((CMode.qq, f.reverse, row) : CSt)
      else if f = [] then (ms, [], row)
      else (CMode.inf, f.reverse, row) := by
  cases hq : needsQuote f with
  | true =>
    rw [if_pos rfl]
    rw [show quoteField f = '"' :: (escapeQuotes f ++ ['"']) from by
      simp [quoteField, hq]]
    show List.foldl csvChar (csvChar (ms, [], row) '"')
      (escapeQuotes f ++ ['"']) = _
    rw [show csvChar (ms, [], row) '"' = (CMode.inq, [], row) from by
      rcases hms with rfl | rfl <;> simp [csvChar]]
    rw [List.foldl_append, foldl_esc_walk f [] row]
    show csvChar (CMode.inq, f.reverse ++ [], row) '"' = _
    simp [csvChar]
  | false =>
    rw [if_neg (by decide)]
    cases f with
    | nil =>
      rw [if_pos rfl]
      rfl
    | cons c f2 =>
      rw [if_neg (by simp)]
      have hmem := needsQuote_false_mem hq
      obtain ⟨h1, h2, h3, h4⟩ := hmem c (List.mem_cons_self c f2)
      rw [show quoteField (c :: f2) = c :: f2 from by simp [quoteField, hq]]
      show List.foldl csvChar (csvChar (ms, [], row) c) f2 = _
      rw [show csvChar (ms, [], row) c = (CMode.inf, [c], row) from by
        rcases hms with rfl | rfl <;> simp [csvChar, h1, h2]]
      rw [foldl_inf_walk f2 (fun d hd => (hmem d (List.mem_cons_of_mem c hd)).1)
        [c] row]
      simp

theorem csvLine_join : ∀ (cells : List Str), cells ≠ [] → ∀ (row : List Str),
    csvLine (CMode.sf, [], row) (csvJoinRow cells) =
      (some ((cells.reverse ++ row).reverse), (CMode.sr, [], [])) := by
  intro cells
  induction cells with
  | nil => intro h; exact absurd rfl h
  | cons f t ih =>
    intro _ row
    cases t with
    | nil =>
      rw [csvJoinRow_singleton]
      unfold csvLine
      rw [foldl_quoteField_state f (Or.inr rfl) row]
      by_cases hq : needsQuote f = true
      · rw [if_pos hq]
        simp [csvEol]
      · rw [if_neg hq]
        by_cases hf : f = []
        · rw [if_pos hf]
          subst hf
          simp [csvEol]
        · rw [if_neg hf]
          simp [csvEol]
    | cons g t2 =>
      rw [csvJoinRow_cons_cons]
      unfold csvLine
      rw [show (',' :: csvJoinRow (g :: t2)) = [','] ++ csvJoinRow (g :: t2)
        from rfl]
      rw [List.foldl_append, List.foldl_append]
      rw [foldl_quoteField_state f (Or.inr rfl) row]
      have hstep : List.foldl csvChar
          (if needsQuote f = true then ((CMode.qq, f.reverse, row) : CSt)
           else if f = [] then ((CMode.sf, [], row) : CSt)
           else (CMode.inf, f.reverse, row)) [','] =
          (CMode.sf, [], f :: row) := by
        by_cases hq : needsQuote f = true
        · rw [if_pos hq]
          show csvChar (CMode.qq, f.reverse, row) ',' = _
          simp [csvChar]
        · rw [if_neg hq]
          by_cases hf : f = []
          · rw [if_pos hf]
            subst hf
            show csvChar (CMode.sf, [], row) ',' = _
            simp [csvChar]
          · rw [if_neg hf]
            show csvChar (CMode.inf, f.reverse, row) ',' = _
            simp [csvChar]
      rw [hstep]
      have hih := ih (List.cons_ne_nil g t2) (f :: row)
      unfold csvLine at hih
      rw [hih]
      simp

theorem csvLine_row (c1 c2 : Str) (t : List Str) :
    csvLine (CMode.sr, [], []) (csvJoinRow (c1 :: c2 :: t)) =
      (some (c1 :: c2 :: t), (CMode.sr, [], [])) := by
  rw [csvJoinRow_cons_cons]
  unfold csvLine
  rw [show (',' :: csvJoinRow (c2 :: t)) = [','] ++ csvJoinRow (c2 :: t)
    from rfl]
  rw [List.foldl_append, List.foldl_append]
  rw [foldl_quoteField_state c1 (Or.inl rfl) []]
  have hstep : List.foldl csvChar
      (if needsQuote c1 = true then ((CMode.qq, c1.reverse, []) : CSt)
       else if c1 = [] then ((CMode.sr, [], []) : CSt)
       else (CMode.inf, c1.reverse, [])) [','] =
      (CMode.sf, [], [c1]) := by
    by_cases hq : needsQuote c1 = true
    · rw [if_pos hq]
      show csvChar (CMode.qq, c1.reverse, []) ',' = _
      simp [csvChar]
    · rw [if_neg hq]
      by_cases hf : c1 = []
      · rw [if_pos hf]
        subst hf
        show csvChar (CMode.sr, [], []) ',' = _
        simp [csvChar]
      · rw [if_neg hf]
        show csvChar (CMode.inf, c1.reverse, []) ',' = _
        simp [csvChar]
  rw [hstep]
  have hih := csvLine_join (c2 :: t) (List.cons_ne_nil c2 t) [c1]
  unfold csvLine at hih
  rw [hih]
  simp

theorem csvReadLines_roundtrip : ∀ (rows : List (List Str)),
    (∀ r ∈ rows, 2 ≤ r.length) →
    csvReadLines (rows.map csvJoinRow) = rows := by
  intro rows
  induction rows with
  | nil => intro _; rfl
  | cons r rs ih =>
    intro h
    have h2 : 2 ≤ r.length := h r (List.mem_cons_self r rs)
    rcases r with _ | ⟨c1, _ | ⟨c2, t⟩⟩
    · exact absurd h2 (by simp)
    · exact absurd h2 (by simp)
    · show csvLinesAux (CMode.sr, [], [])
        (csvJoinRow (c1 :: c2 :: t) :: rs.map csvJoinRow) = _
      unfold csvLinesAux
      rw [csvLine_row]
      show (c1 :: c2 :: t) :: csvReadLines (rs.map csvJoinRow) = _
      rw [ih (fun x hx => h x (List.mem_cons_of_mem _ hx))]

/-! ### Claim theorems -/

/-- C5: `parse_vehicle` returns the empty triple when the string is empty,
shorter than 5 characters, has fewer than 2 whitespace tokens, or its first
token is not exactly 4 digits; otherwise the year is the first token's last
two characters, the make is the second token, and the model is the
space-join of the remaining tokens.  The record-level vehicle filter drops
a record exactly on empty/under-5 vehicle text, and a long-enough malformed
vehicle passes through with empty year/make/model; `"2021 Toyota Camry"`
gives year `"21"`, make `"Toyota"`, model `"Camry"`. -/
theorem c5_vehicle_decomposition_and_filter :
    (∀ v : Str, v = [] ∨ v.length < 5 → parse_vehicle v = ([], [], [])) ∧
    (∀ v : Str, (pySplit v).length < 2 → parse_vehicle v = ([], [], [])) ∧
    (∀ (v y mk : Str) (rest : List Str), pySplit v = y :: mk :: rest →
      ¬(y.all Char.isDigit = true ∧ y.length = 4) →
      parse_vehicle v = ([], [], [])) ∧
    (∀ (v y mk : Str) (rest : List Str), ¬(v = [] ∨ v.length < 5) →
      pySplit v = y :: mk :: rest → y.all Char.isDigit = true →
      y.length = 4 →
      parse_vehicle v = (y.drop (y.length - 2), mk, joinSpace rest)) ∧
    (∀ (seen : List DKey) (c v vi mi ad ra pl pu bn pa ph : Str),
      v = [] ∨ v.length < 5 →
      recordOf seen c v vi mi ad ra pl pu bn pa ph = .ok (none, seen)) ∧
    (∀ (seen : List DKey) (c v vi mi ad ra pl pu bn pa ph f0 l0 a t : Str),
      ¬(v = [] ∨ v.length < 5) → split_name c = .ok (f0, l0) →
      parse_datetime ad = (a, t) → a ≠ [] → t ≠ [] →
      ¬(vi ≠ [] ∧ (vi, a, t) ∈ seen) →
      recordOf seen c v vi mi ad ra pl pu bn pa ph =
        .ok (some ⟨normalize_phone ph,
                   if f0 ≠ [] then pyCapitalize f0 else [],
                   if l0 ≠ [] then pyCapitalize l0 else [],
                   (parse_vehicle v).1, (parse_vehicle v).2.1,
                   (parse_vehicle v).2.2, vi, mi, a, t, ra, pu,
                   if bn ≠ [] then bn else pl, pa⟩, (vi, a, t) :: seen)) ∧
    parse_vehicle (str "2021 Toyota Camry") =
      (str "21", str "Toyota", str "Camry") ∧
    parse_vehicle (str "abc") = ([], [], []) := by
  refine ⟨?_, ?_, ?_, ?_, ?_, ?_, by decide, by decide⟩
  · intro v h
    unfold parse_vehicle
    rw [if_pos h]
  · intro v h
    unfold parse_vehicle
    by_cases h5 : v = [] ∨ v.length < 5
    · rw [if_pos h5]
    · rw [if_neg h5]
      rcases hs : pySplit v with _ | ⟨y, _ | ⟨mk, rest⟩⟩
      · rfl
      · rfl
      · rw [hs] at h; simp at h; omega
  · intro v y mk rest hs hy
    unfold parse_vehicle
    by_cases h5 : v = [] ∨ v.length < 5
    · rw [if_pos h5]
    · rw [if_neg h5, hs]
      have hc : y.all Char.isDigit = false ∨ y.length ≠ 4 := by
        rcases Decidable.em (y.all Char.isDigit = true) with hd | hd
        · exact Or.inr fun hl => hy ⟨hd, hl⟩
        · exact Or.inl (by simpa using hd)
      dsimp only
      rw [if_pos hc]
  · intro v y mk rest h5 hs hd hl
    unfold parse_vehicle
    rw [if_neg h5, hs]
    have hc : ¬(y.all Char.isDigit = false ∨ y.length ≠ 4) := by
      push_neg
      exact ⟨by simp [hd], hl⟩
    dsimp only
    rw [if_neg hc]
    rcases rest with _ | ⟨r0, rrest⟩
    · simp only [ne_eq, not_true_eq_false, if_neg]
      rfl
    · simp
  · intro seen c v vi mi ad ra pl pu bn pa ph h
    unfold recordOf
    rw [if_pos h]
  · intro seen c v vi mi ad ra pl pu bn pa ph f0 l0 a t h5 hsn hdt ha ht hdup
    unfold recordOf
    rw [if_neg h5, hsn]
    dsimp only
    rw [hdt]
    dsimp only
    rw [if_neg (by push_neg; exact ⟨ha, ht⟩ :
          ¬((a, t).1 = [] ∨ (a, t).2 = []))]
    rw [if_neg (by simpa using hdup :
          ¬(vi ≠ [] ∧ (vi, (a, t).1, (a, t).2) ∈ seen))]

/-- Closed witness for `c5_vehicle_decomposition_and_filter`: a record with
the malformed-but-long vehicle `"Toyota Camry"` is emitted with empty
year/make/model. -/
theorem c5_vehicle_decomposition_and_filter_witness :
    recordOf [] (str "bob") (str "Toyota Camry") (str "V1") (str "7")
      (str "12/19/2025 09:30:00 AM") (str "9") (str "P") (str "1/1/2020")
      [] (str "350") (str "C: 5") =
    .ok (some ⟨str "5", str "Bob", [], [], [], [], str "V1", str "7",
               str "Friday, December 19", str "09:30", str "9",
               str "1/1/2020", str "P", str "350"⟩,
         [(str "V1", str "Friday, December 19", str "09:30")]) := by
  have h := c5_vehicle_decomposition_and_filter.2.2.2.2.2.1 []
    (str "bob") (str "Toyota Camry") (str "V1") (str "7")
    (str "12/19/2025 09:30:00 AM") (str "9") (str "P") (str "1/1/2020")
    [] (str "350") (str "C: 5") (str "bob") [] (str "Friday, December 19")
    (str "09:30") (by decide) (by decide) (by decide) (by decide)
    (by decide) (by decide)
  exact h.trans (by decide)

/-- C7 counterexample: the claim says the remaining letters of each word
are left as-is, but Python's `str.capitalize` lowercases everything after
the first character and is applied to the whole first-name field, not per
word: on customer `"MARY ANN SMITH"` the code produces
`("Mary ann", "Smith")`, not the claimed `("MARY ANN", "SMITH")`. -/
theorem c7_name_split_counterexample :
    split_name (pyStrip (str "MARY ANN SMITH")) =
      .ok (str "MARY ANN", str "SMITH") ∧
    pyCapitalize (str "MARY ANN") = str "Mary ann" ∧
    pyCapitalize (str "SMITH") = str "Smith" ∧
    specC7NameOrig (str "MARY ANN SMITH") = (str "MARY ANN", str "SMITH") ∧
    specC7Name (str "MARY ANN SMITH") = (str "Mary ann", str "Smith") ∧
    specC7Name (str "MARY ANN SMITH") ≠
      specC7NameOrig (str "MARY ANN SMITH") := by
  decide

/-- C7 (amended): for every raw customer name, the trimmed name is split on
whitespace; one token becomes the first-name field with empty last name,
otherwise all tokens but the last join as the first-name field and the last
token is the last name; then each of the two resulting fields (not each
word) has its first character uppercased and all remaining characters
lowercased, when non-empty.  In particular the split never raises, and
`"John Smith"` gives `("John", "Smith")`, `"Madonna"` gives
`("Madonna", "")`. -/
theorem c7_name_split_amended :
    (∀ cell : Str, ∃ f0 l0 : Str,
      split_name (pyStrip cell) = .ok (f0, l0) ∧
      ((if f0 ≠ [] then pyCapitalize f0 else []),
       (if l0 ≠ [] then pyCapitalize l0 else [])) = specC7Name cell) ∧
    split_name (str "John Smith") = .ok (str "John", str "Smith") ∧
    split_name (str "Madonna") = .ok (str "Madonna", []) ∧
    specC7Name (str "john smith") = (str "John", str "Smith") := by
  refine ⟨?_, by decide, by decide, by decide⟩
  intro cell
  by_cases h0 : pyStrip cell = []
  · refine ⟨[], [], ?_, ?_⟩
    · rw [h0]; rfl
    · rw [specC7Name, h0]
      simp [pySplit, pySplitAux]
  · obtain ⟨c, r, hcr⟩ := List.exists_cons_of_ne_nil h0
    have hc := pyStrip_head_not_space hcr
    have hsplit_ne : pySplit (pyStrip cell) ≠ [] := by
      rw [hcr]; exact pySplit_ne_nil hc
    have hidem : pyStrip (pyStrip cell) = pyStrip cell := pyStrip_idem cell
    rcases htoks : pySplit (pyStrip cell) with _ | ⟨t, _ | ⟨t2, ts⟩⟩
    · exact absurd htoks hsplit_ne
    · have ht : t ≠ [] := pySplit_mem_ne_nil (htoks ▸ List.mem_cons_self t [])
      refine ⟨t, [], ?_, ?_⟩
      · rw [split_name, if_neg h0, hidem, htoks]
      · rw [specC7Name, htoks]
        rw [if_pos ht, if_neg (by simp), pyCapitalize_eq_capFieldPython]
    · have ht : t ≠ [] :=
        pySplit_mem_ne_nil (htoks ▸ List.mem_cons_self t (t2 :: ts))
      have hlast : (t :: t2 :: ts).getLastD [] ≠ [] := by
        apply pySplit_mem_ne_nil (s := pyStrip cell)
        rw [htoks]
        exact getLastD_mem _ [] (by simp)
      have hfirst : joinSpace ((t :: t2 :: ts).dropLast) ≠ [] := by
        rw [List.dropLast_cons₂]
        exact joinSpace_cons_ne_nil _ ht
      refine ⟨joinSpace ((t :: t2 :: ts).dropLast),
              (t :: t2 :: ts).getLastD [], ?_, ?_⟩
      · rw [split_name, if_neg h0, hidem, htoks]
      · rw [specC7Name, htoks]
        rw [if_pos hfirst, if_pos hlast, pyCapitalize_eq_capFieldPython,
            pyCapitalize_eq_capFieldPython]

/-- Closed witness for `c7_name_split_amended` at the concrete customer
name `"mary ANN smith"`. -/
theorem c7_name_split_amended_witness :
    specC7Name (str "mary ANN smith") = (str "Mary ann", str "Smith") ∧
    split_name (pyStrip (str "mary ANN smith")) =
      .ok (str "mary ANN", str "smith") := by
  obtain ⟨f0, l0, h1, h2⟩ := c7_name_split_amended.1 (str "mary ANN smith")
  have hf : f0 = str "mary ANN" ∧ l0 = str "smith" := by
    have := h1.symm.trans (by decide :
      split_name (pyStrip (str "mary ANN smith")) =
        .ok (str "mary ANN", str "smith"))
    cases this
    exact ⟨rfl, rfl⟩
  refine ⟨?_, hf.1 ▸ hf.2 ▸ h1⟩
  rw [← h2, hf.1, hf.2]
  decide

/-- C3 counterexample: the claim's "zero-padded month and day, no other
format accepted" is false — `strptime` accepts non-zero-padded fields and a
lowercase meridiem, so `"1/19/2025 9:30:00 am"` parses instead of yielding
the empty pair. -/
theorem c3_datetime_counterexample :
    parse_datetime (str "1/19/2025 9:30:00 am") =
      (str "Sunday, January 19", str "09:30") ∧
    parse_datetime (str "1/19/2025 9:30:00 am") ≠ ([], []) := by
  decide

/-- C3 (amended): `parse_datetime` returns the empty pair when the input is
empty or its stripped form is rejected by the `strptime` pattern
`%m/%d/%Y %I:%M:%S %p` — which requires a four-digit year and a valid
calendar date but accepts one- or two-digit month/day/hour/minute/second,
a case-insensitive meridiem, and arbitrary whitespace runs between date,
time and meridiem.  On success it returns
`"<full weekday name>, <full month name> <day with no leading zero>"` (year
omitted) and a 24-hour `HH:MM` string; both are never empty, so a record is
dropped for exactly the unparseable dates; `"12/19/2025 09:30:00 AM"` gives
`("Friday, December 19", "09:30")`. -/
theorem c3_datetime_split_amended :
    parse_datetime [] = ([], []) ∧
    (∀ s : Str, strptimeAppt (pyStrip s) = none → parse_datetime s = ([], [])) ∧
    (∀ (s : Str) (dt : DT), strptimeAppt (pyStrip s) = some dt →
      parse_datetime s = (apptString dt, timeString dt) ∧
      apptString dt ≠ [] ∧ timeString dt ≠ []) ∧
    (∀ (seen : List DKey) (c v vi mi ad ra pl pu bn pa ph : Str)
       (p : Str × Str), ¬(v = [] ∨ v.length < 5) → split_name c = .ok p →
      (parse_datetime ad).1 = [] ∨ (parse_datetime ad).2 = [] →
      recordOf seen c v vi mi ad ra pl pu bn pa ph = .ok (none, seen)) ∧
    parse_datetime (str "12/19/2025 09:30:00 AM") =
      (str "Friday, December 19", str "09:30") ∧
    parse_datetime (str "12/19/2025 12:30:00 AM") =
      (str "Friday, December 19", str "00:30") ∧
    parse_datetime (str "12/19/25 09:30:00 AM") = ([], []) ∧
    parse_datetime (str "13/01/2025 09:30:00 AM") = ([], []) ∧
    parse_datetime (str "02/30/2025 09:30:00 AM") = ([], []) ∧
    parse_datetime (str "12/19/2025 00:30:00 AM") = ([], []) ∧
    parse_datetime (str "12/19/2025 09:30:61 AM") = ([], []) ∧
    parse_datetime (str "12/19/2025 09:30:00 AMx") = ([], []) := by
  refine ⟨by decide, ?_, ?_, ?_, by decide, by decide, by decide, by decide,
          by decide, by decide, by decide, by decide⟩
  · intro s hn
    unfold parse_datetime
    by_cases h0 : s = []
    · rw [if_pos h0]
    · rw [if_neg h0, hn]
  · intro s dt hdt
    have h0 : s ≠ [] := by
      intro h
      rw [h] at hdt
      rw [(by decide : strptimeAppt (pyStrip []) = none)] at hdt
      exact Option.noConfusion hdt
    refine ⟨?_, ?_, ?_⟩
    · unfold parse_datetime
      rw [if_neg h0, hdt]
    · simp [apptString]
    · simp [timeString]
  · intro seen c v vi mi ad ra pl pu bn pa ph p h5 hsn hdt
    unfold recordOf
    rw [if_neg h5, hsn]
    have : ((parse_datetime ad).1 = [] ∨ (parse_datetime ad).2 = []) := hdt
    rcases p with ⟨f0, l0⟩
    dsimp only
    rw [if_pos this]

/-- Closed witness for `c3_datetime_split_amended`: the lenient parse at
`"3/5/2026 7:45:10 PM"`. -/
theorem c3_datetime_split_amended_witness :
    parse_datetime (str "3/5/2026 7:45:10 PM") =
      (str "Thursday, March 5", str "19:45") := by
  have h := (c3_datetime_split_amended.2.2.1 (str "3/5/2026 7:45:10 PM")
    ⟨2026, 3, 5, 19, 45, 10⟩ (by decide)).1
  exact h.trans (by decide)

/-- C4: a record is dropped as a duplicate exactly when its VIN is
non-empty and `(Vin, Appointment, Time)` was accepted earlier in the run;
two rows with identical non-empty key give one output row (the first); and
empty-VIN rows are never deduplicated against each other, even against a
previously recorded empty-VIN key with the same Appointment/Time. -/
theorem c4_deduplication :
    (∀ (seen : List DKey) (c v vi mi ad ra pl pu bn pa ph f0 l0 a t : Str),
      ¬(v = [] ∨ v.length < 5) → split_name c = .ok (f0, l0) →
      parse_datetime ad = (a, t) → a ≠ [] → t ≠ [] →
      (recordOf seen c v vi mi ad ra pl pu bn pa ph = .ok (none, seen) ↔
        vi ≠ [] ∧ (vi, a, t) ∈ seen)) ∧
    (∀ (seen : List DKey)
       (c1 v1 mi1 ad1 ra1 pl1 pu1 bn1 pa1 ph1 f1 l1
        c2 v2 mi2 ad2 ra2 pl2 pu2 bn2 pa2 ph2 f2 l2 vi a t : Str),
      vi ≠ [] → (vi, a, t) ∉ seen →
      ¬(v1 = [] ∨ v1.length < 5) → split_name c1 = .ok (f1, l1) →
      parse_datetime ad1 = (a, t) → a ≠ [] → t ≠ [] →
      ¬(v2 = [] ∨ v2.length < 5) → split_name c2 = .ok (f2, l2) →
      parse_datetime ad2 = (a, t) →
      (∃ rec : Rec,
        recordOf seen c1 v1 vi mi1 ad1 ra1 pl1 pu1 bn1 pa1 ph1 =
          .ok (some rec, (vi, a, t) :: seen)) ∧
      recordOf ((vi, a, t) :: seen) c2 v2 vi mi2 ad2 ra2 pl2 pu2 bn2 pa2
          ph2 = .ok (none, (vi, a, t) :: seen)) ∧
    (∀ (seen : List DKey) (c v mi ad ra pl pu bn pa ph f0 l0 a t : Str),
      ¬(v = [] ∨ v.length < 5) → split_name c = .ok (f0, l0) →
      parse_datetime ad = (a, t) → a ≠ [] → t ≠ [] →
      ∃ rec : Rec, recordOf seen c v [] mi ad ra pl pu bn pa ph =
        .ok (some rec, ([], a, t) :: seen)) ∧
    convertRows [fullHeader,
      [str "ann lee", str "2020 Honda Civic", str "V77", str "10",
       str "12/19/2025 09:30:00 AM", str "5", [], [], [], [], [],
       str "C: 12", []],
      [str "ann lee", str "2020 Honda Civic", str "V77", str "10",
       str "12/19/2025 09:30:00 AM", str "5", [], [], [], [], [],
       str "C: 12", []]] =
      .ok [⟨str "12", str "Ann", str "Lee", str "20", str "Honda",
            str "Civic", str "V77", str "10", str "Friday, December 19",
            str "09:30", str "5", [], [], []⟩] ∧
    convertRows [fullHeader,
      [str "ann lee", str "2020 Honda Civic", [], str "10",
       str "12/19/2025 09:30:00 AM", str "5", [], [], [], [], [],
       str "C: 12", []],
      [str "bo cruz", str "2021 Honda Civic", [], str "11",
       str "12/19/2025 09:30:00 AM", str "6", [], [], [], [], [],
       str "C: 13", []]] =
      .ok [⟨str "12", str "Ann", str "Lee", str "20", str "Honda",
            str "Civic", [], str "10", str "Friday, December 19",
            str "09:30", str "5", [], [], []⟩,
           ⟨str "13", str "Bo", str "Cruz", str "21", str "Honda",
            str "Civic", [], str "11", str "Friday, December 19",
            str "09:30", str "6", [], [], []⟩] := by
  refine ⟨?_, ?_, ?_, by decide, by decide⟩
  · intro seen c v vi mi ad ra pl pu bn pa ph f0 l0 a t h5 hsn hdt ha ht
    constructor
    · intro h
      by_contra hnd
      rw [recordOf_emit seen c v vi mi ad ra pl pu bn pa ph f0 l0 a t
        h5 hsn hdt ha ht hnd] at h
      simp at h
    · intro ⟨hvne, hmem⟩
      exact recordOf_drop_dup seen c v vi mi ad ra pl pu bn pa ph f0 l0 a t
        h5 hsn hdt ha ht hvne hmem
  · intro seen c1 v1 mi1 ad1 ra1 pl1 pu1 bn1 pa1 ph1 f1 l1
      c2 v2 mi2 ad2 ra2 pl2 pu2 bn2 pa2 ph2 f2 l2 vi a t
      hvne hnm h51 hsn1 hdt1 ha ht h52 hsn2 hdt2
    constructor
    · exact ⟨_, recordOf_emit seen c1 v1 vi mi1 ad1 ra1 pl1 pu1 bn1 pa1 ph1
        f1 l1 a t h51 hsn1 hdt1 ha ht (fun hx => hnm hx.2)⟩
    · exact recordOf_drop_dup _ c2 v2 vi mi2 ad2 ra2 pl2 pu2 bn2 pa2 ph2
        f2 l2 a t h52 hsn2 hdt2 ha ht hvne (List.mem_cons_self _ _)
  · intro seen c v mi ad ra pl pu bn pa ph f0 l0 a t h5 hsn hdt ha ht
    exact ⟨_, recordOf_emit seen c v [] mi ad ra pl pu bn pa ph f0 l0 a t
      h5 hsn hdt ha ht (fun hx => hx.1 rfl)⟩

/-- Closed witness for `c4_deduplication`: the duplicate-drop implication
at a concrete seen-set and record. -/
theorem c4_deduplication_witness :
    recordOf [(str "V9", str "Friday, December 19", str "09:30")]
      (str "al b") (str "2020 Honda Civic") (str "V9") (str "1")
      (str "12/19/2025 09:30:00 AM") (str "2") [] [] [] [] (str "C: 4") =
    .ok (none, [(str "V9", str "Friday, December 19", str "09:30")]) := by
  exact (c4_deduplication.1 [(str "V9", str "Friday, December 19",
      str "09:30")]
    (str "al b") (str "2020 Honda Civic") (str "V9") (str "1")
    (str "12/19/2025 09:30:00 AM") (str "2") [] [] [] [] (str "C: 4")
    (str "al") (str "b") (str "Friday, December 19") (str "09:30")
    (by decide) (by decide) (by decide) (by decide) (by decide)).mpr
    (by decide)

/-- C10: when the located header contains all eleven recognized column
names, no data row can raise: the pipeline returns output.  Rows are padded
with empty cells up to the header length and never truncated (a row at
least as long as the header is left unchanged), and a data row of empty
cells is always silently dropped. -/
theorem c10_ragged_row_safety :
    (∀ (rows : List (List Str)) (i : Nat),
      findHeaderIdx rows = some i →
      (∀ nf ∈ recognizedFields, nf.1 ∈ rows.getD i []) →
      ∃ recs, convertRows rows = .ok recs) ∧
    (∀ (row : List Str) (n : Nat),
      padTo row n = row ++ List.replicate (n - row.length) [] ∧
      (row.length ≤ n → (padTo row n).length = n) ∧
      (n ≤ row.length → padTo row n = row)) ∧
    (∀ (headers : List Str) (seen : List DKey) (k : Nat),
      (∀ nf ∈ recognizedFields, nf.1 ∈ headers) →
      processRow headers seen (List.replicate k ([] : Str)) =
        .ok (none, seen)) := by
  refine ⟨?_, ?_, ?_⟩
  · intro rows i hfind hall
    unfold convertRows
    rw [hfind]
    have hmiss : requiredFields.filter
        (fun f => ¬ (rows.getD i []).contains f) = [] := by
      rw [List.filter_eq_nil_iff]
      intro f hf
      have hmem : f ∈ rows.getD i [] := by
        simp only [requiredFields, List.mem_cons, List.not_mem_nil,
          or_false] at hf
        rcases hf with rfl | rfl | rfl | rfl | rfl | rfl | rfl
        · exact hall (str "Customer", 0) (by decide)
        · exact hall (str "Vehicle", 1) (by decide)
        · exact hall (str "VIN", 2) (by decide)
        · exact hall (str "Mileage", 3) (by decide)
        · exact hall (str "Appointment Date", 4) (by decide)
        · exact hall (str "Rate", 5) (by decide)
        · exact hall (str "Phone Numbers", 11) (by decide)
      simp
      simpa using hmem
    dsimp only
    rw [hmiss]
    rw [if_neg (by simp)]
    obtain ⟨recs, hrecs⟩ := processRows_ok hall (rows.drop (i + 1)) []
    rw [hrecs]
    exact ⟨recs, rfl⟩
  · intro row n
    refine ⟨rfl, ?_, fun h => padTo_of_ge h⟩
    intro h
    rw [padTo_length]
    omega
  · intro headers seen k hall
    have hval : ∀ j, (padTo (List.replicate k ([] : Str))
        headers.length).getD j [] = [] := by
      intro j
      apply getD_all_nil
      intro x hx
      rcases List.mem_append.mp hx with hx | hx
      · exact List.eq_of_mem_replicate hx
      · exact List.eq_of_mem_replicate hx
    obtain ⟨i1, _, _, he1⟩ := extractField_ok_of_mem
      (List.replicate k ([] : Str)) 0 (hall (str "Customer", 0) (by decide))
    obtain ⟨i2, _, _, he2⟩ := extractField_ok_of_mem
      (List.replicate k ([] : Str)) 1 (hall (str "Vehicle", 1) (by decide))
    obtain ⟨i3, _, _, he3⟩ := extractField_ok_of_mem
      (List.replicate k ([] : Str)) 2 (hall (str "VIN", 2) (by decide))
    obtain ⟨i4, _, _, he4⟩ := extractField_ok_of_mem
      (List.replicate k ([] : Str)) 3 (hall (str "Mileage", 3) (by decide))
    obtain ⟨i5, _, _, he5⟩ := extractField_ok_of_mem
      (List.replicate k ([] : Str)) 4
      (hall (str "Appointment Date", 4) (by decide))
    obtain ⟨i6, _, _, he6⟩ := extractField_ok_of_mem
      (List.replicate k ([] : Str)) 5 (hall (str "Rate", 5) (by decide))
    obtain ⟨i7, _, _, he7⟩ := extractField_ok_of_mem
      (List.replicate k ([] : Str)) 6 (hall (str "P/L", 6) (by decide))
    obtain ⟨i8, _, _, he8⟩ := extractField_ok_of_mem
      (List.replicate k ([] : Str)) 7
      (hall (str "Purchase Date", 7) (by decide))
    obtain ⟨i9, _, _, he9⟩ := extractField_ok_of_mem
      (List.replicate k ([] : Str)) 8 (hall (str "Bank Name", 8) (by decide))
    obtain ⟨i10, _, _, he10⟩ := extractField_ok_of_mem
      (List.replicate k ([] : Str)) 9 (hall (str "Payment", 9) (by decide))
    obtain ⟨i11, _, _, he11⟩ := extractField_ok_of_mem
      (List.replicate k ([] : Str)) 11
      (hall (str "Phone Numbers", 11) (by decide))
    unfold processRow
    rw [he1, he2, he3, he4, he5, he6, he7, he8, he9, he10, he11]
    simp only [hval]
    rfl

/-- Closed witness for `c10_ragged_row_safety`: a full-header file with a
short row, an over-long row and an all-empty row converts without error. -/
theorem c10_ragged_row_safety_witness :
    ∃ recs, convertRows [fullHeader,
      [str "zoe q"],
      [str "zoe q", str "2022 Kia Soul", str "V8", str "1",
       str "12/19/2025 09:30:00 AM", str "2", [], [], [], [], [],
       str "C: 7", [], str "extra", str "extra2"],
      [[], [], [], [], [], [], [], [], [], [], [], [], []]] = .ok recs := by
  exact c10_ragged_row_safety.1 _ 0 (by decide) (by decide)

/-- C1 counterexample: the claim says a column absent from the header (or a
mapped index out of range) extracts as the empty string, but the code falls
back to a fixed default index: with a header of exactly the seven required
names, the absent `P/L` column extracts the cell at index 6 (the Phone
Numbers value `"C: 5"`, not `""`), and the absent `Purchase Date` column
reads index 7, raising an uncaught `IndexError` that aborts the run. -/
theorem c1_row_mapper_counterexample :
    isHeaderRow requiredFields = true ∧
    requiredFields.filter (fun f => ¬ requiredFields.contains f) = [] ∧
    extractField requiredFields
      [str "a", str "2021 Toyota Camry", str "V", str "1",
       str "12/19/2025 09:30:00 AM", str "9", str "C: 5"]
      (str "P/L") 6 = .ok (str "C: 5") ∧
    extractField requiredFields
      [str "a", str "2021 Toyota Camry", str "V", str "1",
       str "12/19/2025 09:30:00 AM", str "9", str "C: 5"]
      (str "Purchase Date") 7 = .error () ∧
    convertRows [requiredFields,
      [str "a", str "2021 Toyota Camry", str "V", str "1",
       str "12/19/2025 09:30:00 AM", str "9", str "C: 5"]] =
      .error .indexError := by
  decide

/-- C1 (amended): each of the eleven recognized columns is extracted from
the padded row, trimmed of surrounding whitespace, at the header's
name-to-last-index mapping when the header contains the name (that index is
always in range for the padded row); when the header lacks the name, the
code uses the column's fixed fallback index instead, extracting whatever
cell sits there when it is in range and raising an uncaught `IndexError`
otherwise. -/
theorem c1_row_mapper_extraction_amended :
    ∀ (headers row : List Str) (name : Str) (fb : Nat),
      (name, fb) ∈ recognizedFields →
      (name ∈ headers →
        ∃ i, lastIdxOf name headers = some i ∧ i < headers.length ∧
          extractField headers row name fb =
            .ok (pyStrip ((padTo row headers.length).getD i []))) ∧
      (name ∉ headers →
        (fb < (padTo row headers.length).length →
          extractField headers row name fb =
            .ok (pyStrip ((padTo row headers.length).getD fb []))) ∧
        (¬ fb < (padTo row headers.length).length →
          extractField headers row name fb = .error ())) := by
  intro headers row name fb _
  refine ⟨fun hmem => extractField_ok_of_mem row fb hmem,
          fun hnm => ⟨fun hlt => extractField_absent_in_range hnm hlt,
                      fun hge => extractField_absent_oor hnm hge⟩⟩

/-- Closed witness for `c1_row_mapper_extraction_amended`: a duplicated
header name maps to its last index, and an absent optional name with an
out-of-range fallback raises. -/
theorem c1_row_mapper_extraction_amended_witness :
    extractField [str "VIN", str "Customer", str "Vehicle", str "Mileage",
      str "Appointment Date", str "Rate", str "Phone Numbers", str "VIN"]
      [str "a", str "b", str "c", str "d", str "e", str "f", str "g",
       str " h "] (str "VIN") 2 = .ok (str "h") ∧
    extractField [str "VIN", str "Customer", str "Vehicle", str "Mileage",
      str "Appointment Date", str "Rate", str "Phone Numbers", str "VIN"]
      [str "a", str "b", str "c", str "d", str "e", str "f", str "g",
       str " h "] (str "Bank Name") 8 = .error () := by
  constructor
  · obtain ⟨i, hi, _, he⟩ := (c1_row_mapper_extraction_amended
      [str "VIN", str "Customer", str "Vehicle", str "Mileage",
       str "Appointment Date", str "Rate", str "Phone Numbers", str "VIN"]
      [str "a", str "b", str "c", str "d", str "e", str "f", str "g",
       str " h "] (str "VIN") 2 (by decide)).1 (by decide)
    have hi7 : i = 7 := by
      have : lastIdxOf (str "VIN")
          [str "VIN", str "Customer", str "Vehicle", str "Mileage",
           str "Appointment Date", str "Rate", str "Phone Numbers",
           str "VIN"] = some 7 := by decide
      rw [this] at hi
      exact (Option.some.inj hi).symm
    rw [hi7] at he
    exact he.trans (by decide)
  · exact ((c1_row_mapper_extraction_amended
      [str "VIN", str "Customer", str "Vehicle", str "Mileage",
       str "Appointment Date", str "Rate", str "Phone Numbers", str "VIN"]
      [str "a", str "b", str "c", str "d", str "e", str "f", str "g",
       str " h "] (str "Bank Name") 8 (by decide)).2 (by decide)).2
      (by decide)

/-- C2 counterexample: a file whose header is found and contains all seven
required names can still fail — with an uncaught `IndexError`, not a
structural error — when an optional column's fallback index is out of
range, refuting "otherwise the pipeline returns output". -/
theorem c2_structural_failure_counterexample :
    isHeaderRow requiredFields = true ∧
    requiredFields.filter (fun f => ¬ requiredFields.contains f) = [] ∧
    convertRows [requiredFields,
      [str "zz top", str "2019 Ford F150", str "V2", str "3",
       str "12/19/2025 09:30:00 AM", str "8", str "H: 77"]] =
      .error .indexError := by
  decide

/-- C2 (amended): the pipeline fails with "header not found" exactly when
no row's first cell contains the substring `"Customer"`; otherwise the
first such row is the header (all earlier rows are preamble) and, when any
required column name is missing from it, the pipeline fails naming exactly
the missing names.  When the header is found and complete, the pipeline
returns output unless some recognized column name is absent from the header
and some data row, after padding, is no longer than that column's fixed
fallback index — in which case the run aborts with an uncaught
`IndexError` instead. -/
theorem c2_structural_failure_amended :
    ∀ rows : List (List Str),
      (convertRows rows = .error .headerNotFound ↔
        ∀ r ∈ rows, isHeaderRow r = false) ∧
      (∀ i, findHeaderIdx rows = some i →
        (i < rows.length ∧ isHeaderRow (rows.getD i []) = true ∧
          ∀ j, j < i → isHeaderRow (rows.getD j []) = false) ∧
        (requiredFields.filter
            (fun f => ¬ (rows.getD i []).contains f) ≠ [] →
          convertRows rows = .error (.missingHeaders
            (requiredFields.filter
              (fun f => ¬ (rows.getD i []).contains f)))) ∧
        (requiredFields.filter
            (fun f => ¬ (rows.getD i []).contains f) = [] →
          (convertRows rows = .error .indexError ↔
            ∃ row ∈ rows.drop (i + 1), ∃ nf ∈ recognizedFields,
              nf.1 ∉ rows.getD i [] ∧
              ¬ nf.2 < (padTo row (rows.getD i []).length).length) ∧
          ((¬ ∃ row ∈ rows.drop (i + 1), ∃ nf ∈ recognizedFields,
              nf.1 ∉ rows.getD i [] ∧
              ¬ nf.2 < (padTo row (rows.getD i []).length).length) →
            ∃ recs, convertRows rows = .ok recs))) := by
  intro rows
  constructor
  · constructor
    · intro h
      rcases hf : findHeaderIdx rows with _ | i
      · exact List.findIdx?_eq_none_iff.mp hf
      · exfalso
        unfold convertRows at h
        rw [hf] at h
        dsimp only at h
        by_cases hm : requiredFields.filter
            (fun f => ¬ (rows.getD i []).contains f) ≠ []
        · rw [if_pos hm] at h
          simp at h
        · rw [if_neg hm] at h
          rcases hp : processRows (rows.getD i []) []
              (rows.drop (i + 1)) with e | recs
          · rw [hp] at h
            simp at h
          · rw [hp] at h
            simp at h
    · intro hall
      have hf : findHeaderIdx rows = none :=
        List.findIdx?_eq_none_iff.mpr hall
      unfold convertRows
      rw [hf]
  · intro i hf
    obtain ⟨hlt, hp, hprev⟩ :=
      List.findIdx?_eq_some_iff_getElem.mp hf
    have hgd : rows.getD i [] = rows.get ⟨i, hlt⟩ := by
      rw [List.getD_eq_getElem?_getD, List.getElem?_eq_getElem hlt]
      rfl
    refine ⟨⟨hlt, ?_, ?_⟩, ?_, ?_⟩
    · rw [hgd]
      exact hp
    · intro j hj
      have hjl : j < rows.length := Nat.lt_trans hj hlt
      have : rows.getD j [] = rows.get ⟨j, hjl⟩ := by
        rw [List.getD_eq_getElem?_getD, List.getElem?_eq_getElem hjl]
        rfl
      rw [this]
      simpa using hprev j hj
    · intro hmiss
      unfold convertRows
      rw [hf]
      dsimp only
      rw [if_pos hmiss]
    · intro hmiss
      constructor
      · unfold convertRows
        rw [hf]
        dsimp only
        rw [if_neg (fun hne => hne hmiss)]
        rcases hpr : processRows (rows.getD i []) []
            (rows.drop (i + 1)) with e | recs
        · refine iff_of_true rfl ?_
          exact (processRows_error_iff (rows.getD i [])
            (rows.drop (i + 1)) []).mp (by rw [hpr])
        · refine iff_of_false (by simp) ?_
          intro hb
          have := (processRows_error_iff (rows.getD i [])
            (rows.drop (i + 1)) []).mpr hb
          rw [hpr] at this
          exact Except.noConfusion this
      · intro hnb
        unfold convertRows
        rw [hf]
        dsimp only
        rw [if_neg (fun hne => hne hmiss)]
        rcases hpr : processRows (rows.getD i []) []
            (rows.drop (i + 1)) with e | recs
        · exact absurd ((processRows_error_iff (rows.getD i [])
            (rows.drop (i + 1)) []).mp (by rw [hpr])) hnb
        · exact ⟨recs, rfl⟩

/-- Closed witness for `c2_structural_failure_amended`: a file with no
header row fails with "header not found". -/
theorem c2_structural_failure_amended_witness :
    convertRows [[str "Next Day Report"], [str "generated 12/18"]] =
      .error .headerNotFound := by
  exact (c2_structural_failure_amended
    [[str "Next Day Report"], [str "generated 12/18"]]).1.mpr (by decide)

/-- C6 counterexample: the claim forms one candidate per label from every
match ("strips non-digit characters from each matched number to form one
candidate per label") and returns the first candidate in priority order —
so on `"C: - H: 5"` the `C` label's candidate is the empty digit-strip of
`"- "` and the claimed result is `""`; the code discards matches whose
digit-strip is empty and returns `"5"`. -/
theorem c6_phone_selection_counterexample :
    normalize_phone (str "C: - H: 5") = str "5" ∧
    specC6PhoneOrig (str "C: - H: 5") = [] ∧
    normalize_phone (str "C: - H: 5") ≠
      specC6PhoneOrig (str "C: - H: 5") := by
  decide

/-- C6 (amended): `normalize_phone` collects every occurrence of a label
`C|H|W|B` immediately followed by a colon and a run of
digits/spaces/hyphens/parentheses, strips non-digits from each matched
number, discards a match whose digit-strip is empty, lets later occurrences
of a label overwrite earlier ones, and returns the first stored candidate
in priority order `C > H > W > B`, or the empty string when none is stored;
an input with both `C:` and `H:` digits yields the `C` digits, and
`"H: (813) 326-9813"` yields `"8133269813"`. -/
theorem c6_phone_selection_amended :
    (∀ raw : Str, normalize_phone raw = specC6Phone raw) ∧
    normalize_phone (str "C: (111) 222-3333 H: (813) 326-9813") =
      str "1112223333" ∧
    normalize_phone (str "H: (813) 326-9813") = str "8133269813" ∧
    normalize_phone (str "no phones here") = [] := by
  refine ⟨?_, by decide, by decide, by decide⟩
  intro raw
  by_cases h0 : raw = []
  · subst h0
    rfl
  · have hm : phoneMatches raw = claimPhoneMatches raw :=
      phoneEmitted_idle_eq_claim raw.length raw le_rfl
    have hc : ∀ l, dictGet (phoneDict (phoneMatches raw)) l =
        claimCandidates raw l := by
      intro l
      rw [dictGet_phoneDict, hm]
      rfl
    unfold normalize_phone specC6Phone
    rw [if_neg h0]
    exact pickPhone_eq_specC6Pick _ _ hc phonePriority

/-- Closed witness for `c6_phone_selection_amended` at a concrete input
exercising overwrite and priority. -/
theorem c6_phone_selection_amended_witness :
    normalize_phone (str "W: 12 B: 34 W: 56") =
      specC6Phone (str "W: 12 B: 34 W: 56") ∧
    specC6Phone (str "W: 12 B: 34 W: 56") = str "56" := by
  exact ⟨c6_phone_selection_amended.1 (str "W: 12 B: 34 W: 56"), by decide⟩

/-- C8: serializer postcondition. Whenever the pipeline succeeds on an
input text, the CSV text it produces parses (under the writer's own
dialect) into exactly the fixed fourteen-field header `phone_number,
Customer, Last Name, Year, Make, Model, Vin, Miles, Appointment, Time,
Rate, Purchase Date, Lender, Payment` followed by one CSV record per
accepted record, in the order the row pipeline produced them (original
source-row order, no re-sorting), and the returned count equals the number
of data records, i.e. the number of CSV records minus the header. -/
theorem c8_serializer_postcondition (text out : Str) (n : Nat)
    (h : convert_content text = .ok (out, n)) :
    ∃ recs : List Rec,
      convertRows (csvReadLines (pySplitlines text)) = .ok recs ∧
      csvRecordsOfText out = outFieldnames :: recs.map recToRow ∧
      n = recs.length ∧
      (csvRecordsOfText out).head? = some outFieldnames ∧
      (csvRecordsOfText out).length = n + 1 := by
  unfold convert_content at h
  rcases hcr : convertRows (csvReadLines (pySplitlines text)) with e | recs
  · rw [hcr] at h
    exact absurd h (by simp)
  · rw [hcr] at h
    simp only [Except.ok.injEq, Prod.mk.injEq] at h
    obtain ⟨h1, h2⟩ := h
    subst h1
    subst h2
    have hrt := csvWrite_roundtrip (outFieldnames :: recs.map recToRow)
      (outRows_two_le recs)
    refine ⟨recs, rfl, hrt, rfl, ?_, ?_⟩
    · rw [hrt]
      rfl
    · rw [hrt]
      simp

/-- Closed witness for `c8_serializer_postcondition` at a concrete input
file with one accepted data row and its concrete serialized output. -/
theorem c8_serializer_postcondition_witness :
    ∃ recs : List Rec,
      convertRows (csvReadLines (pySplitlines (str "Next Day Report\r\nCustomer,Vehicle,VIN,Mileage,Appointment Date,Rate,P/L,Purchase Date,Bank Name,Payment,Sales Person,Phone Numbers,Service Advisor\r\njohn smith,2021 Toyota Camry,VIN1,42000,12/19/2025 09:30:00 AM,100,P,01/02/2020,Big Bank,350,sp,H: (813) 326-9813,sa\r\n"))) = .ok recs ∧
      csvRecordsOfText (str "phone_number,Customer,Last Name,Year,Make,Model,Vin,Miles,Appointment,Time,Rate,Purchase Date,Lender,Payment\r\n8133269813,John,Smith,21,Toyota,Camry,VIN1,42000,\x22Friday, December 19\x22,09:30,100,01/02/2020,Big Bank,350\r\n") = outFieldnames :: recs.map recToRow ∧
      1 = recs.length ∧
      (csvRecordsOfText (str "phone_number,Customer,Last Name,Year,Make,Model,Vin,Miles,Appointment,Time,Rate,Purchase Date,Lender,Payment\r\n8133269813,John,Smith,21,Toyota,Camry,VIN1,42000,\x22Friday, December 19\x22,09:30,100,01/02/2020,Big Bank,350\r\n")).head? = some outFieldnames ∧
      (csvRecordsOfText (str "phone_number,Customer,Last Name,Year,Make,Model,Vin,Miles,Appointment,Time,Rate,Purchase Date,Lender,Payment\r\n8133269813,John,Smith,21,Toyota,Camry,VIN1,42000,\x22Friday, December 19\x22,09:30,100,01/02/2020,Big Bank,350\r\n")).length = 1 + 1 :=
  c8_serializer_postcondition
    (str "Next Day Report\r\nCustomer,Vehicle,VIN,Mileage,Appointment Date,Rate,P/L,Purchase Date,Bank Name,Payment,Sales Person,Phone Numbers,Service Advisor\r\njohn smith,2021 Toyota Camry,VIN1,42000,12/19/2025 09:30:00 AM,100,P,01/02/2020,Big Bank,350,sp,H: (813) 326-9813,sa\r\n")
    (str "phone_number,Customer,Last Name,Year,Make,Model,Vin,Miles,Appointment,Time,Rate,Purchase Date,Lender,Payment\r\n8133269813,John,Smith,21,Toyota,Camry,VIN1,42000,\x22Friday, December 19\x22,09:30,100,01/02/2020,Big Bank,350\r\n")
    1 (by decide)

/-- C9: round-trip incompatibility. Whenever the pipeline succeeds on an
input text, running it again on the CSV text it produced always fails with
the header-not-found `StructuralError` (never silently succeeding): the
output header row starts with `phone_number` and every data row starts
with an all-digit (possibly empty) phone number, so no reparsed row's
first cell contains the substring `Customer`. -/
theorem c9_roundtrip_incompatibility (text out : Str) (n : Nat)
    (h : convert_content text = .ok (out, n)) :
    convert_content out = .error ConvErr.headerNotFound := by
  unfold convert_content at h
  rcases hcr : convertRows (csvReadLines (pySplitlines text)) with e | recs
  · rw [hcr] at h
    exact Except.noConfusion h
  · rw [hcr] at h
    simp only [Except.ok.injEq, Prod.mk.injEq] at h
    obtain ⟨h1, h2⟩ := h
    subst h1
    have hrowsbf : ∀ r ∈ csvReadLines (pySplitlines text), rowBreakFree r :=
      csvReadLines_breakFree _ (pySplitlines_breakFree text)
    have hgood := convertRows_fields_good hrowsbf hcr
    have hallf : ∀ r ∈ (outFieldnames :: recs.map recToRow), ∀ f ∈ r,
        breakFree f := by
      intro r hr
      rcases List.mem_cons.mp hr with rfl | hr
      · decide
      · obtain ⟨x, hx, rfl⟩ := List.mem_map.mp hr
        exact (hgood x hx).1
    unfold convert_content
    rw [pySplitlines_csvWrite (outFieldnames :: recs.map recToRow) hallf]
    rw [csvReadLines_roundtrip _ (outRows_two_le recs)]
    have hfind : findHeaderIdx (outFieldnames :: recs.map recToRow) = none := by
      unfold findHeaderIdx
      rw [List.findIdx?_eq_none_iff]
      intro x hx
      rcases List.mem_cons.mp hx with rfl | hx
      · decide
      · obtain ⟨rec2, hrec2, rfl⟩ := List.mem_map.mp hx
        show containsSub (str "Customer") rec2.phone_number = false
        cases hcs : containsSub (str "Customer") rec2.phone_number
        · rfl
        · exfalso
          have hCmem : 'C' ∈ rec2.phone_number :=
            containsSub_mem (str "Customer") rec2.phone_number hcs 'C'
              (by decide)
          exact absurd ((hgood rec2 hrec2).2 'C' hCmem) (by decide)
    unfold convertRows
    rw [hfind]

/-- Closed witness for `c9_roundtrip_incompatibility`: re-running the
pipeline on the concrete output of a successful run fails with the
header-not-found error. -/
theorem c9_roundtrip_incompatibility_witness :
    convert_content (str "phone_number,Customer,Last Name,Year,Make,Model,Vin,Miles,Appointment,Time,Rate,Purchase Date,Lender,Payment\r\n8133269813,John,Smith,21,Toyota,Camry,VIN1,42000,\x22Friday, December 19\x22,09:30,100,01/02/2020,Big Bank,350\r\n") =
      .error ConvErr.headerNotFound :=
  c9_roundtrip_incompatibility
    (str "Next Day Report\r\nCustomer,Vehicle,VIN,Mileage,Appointment Date,Rate,P/L,Purchase Date,Bank Name,Payment,Sales Person,Phone Numbers,Service Advisor\r\njohn smith,2021 Toyota Camry,VIN1,42000,12/19/2025 09:30:00 AM,100,P,01/02/2020,Big Bank,350,sp,H: (813) 326-9813,sa\r\n")
    (str "phone_number,Customer,Last Name,Year,Make,Model,Vin,Miles,Appointment,Time,Rate,Purchase Date,Lender,Payment\r\n8133269813,John,Smith,21,Toyota,Camry,VIN1,42000,\x22Friday, December 19\x22,09:30,100,01/02/2020,Big Bank,350\r\n")
    1 (by decide)

end CsvConv
